import Mathlib

/-!
Verification of the database-function documentation pipeline
(`cli/src/analyzer.ts`, `cli/src/types.ts`, `cli/src/index.ts`,
`cli/src/html-generator.ts`).

The embedding models JavaScript runtime values that flow through the
pipeline as a `JsonValue` tree.  Modelling conventions, used throughout:

* strings are sequences of Unicode scalar values (`List Char`), not
  UTF-16 code units;
* JSON numbers are modelled as integers (`Int`) with their decimal
  representation, so fractional and exponent literals are outside the
  model;
* JavaScript objects are ordered association lists; a duplicate key can
  only arise transiently from exotic raw JSON text, and property reads
  (`jsProp`) take the last binding, as `JSON.parse` would have kept it.
-/

/-- A JavaScript/JSON value as it appears in the pipeline. -/
inductive JsonValue where
  | null
  | bool (b : Bool)
  | num (n : Int)
  | str (s : String)
  | arr (elems : List JsonValue)
  | obj (fields : List (String × JsonValue))

/-- Left curly brace character (written by codepoint throughout). -/
def lbrace : Char := Char.ofNat 123

/-- Right curly brace character. -/
def rbrace : Char := Char.ofNat 125

/-- Backtick character (markdown fence delimiter). -/
def btick : Char := Char.ofNat 96

/-- The whitespace class of JavaScript's `\s`, `String.prototype.trim` and
regex whitespace: ASCII whitespace plus the Unicode space separators. -/
def isJsWs (c : Char) : Bool :=
  let n := c.toNat
  (9 ≤ n && n ≤ 13) || n = 32 || n = 160 || n = 5760 ||
  (8192 ≤ n && n ≤ 8202) || n = 8232 || n = 8233 || n = 8239 || n = 8287 ||
  n = 12288 || n = 65279

/-- Lookahead for the trailing-comma regex: a run of `\s` whitespace
followed by a closing brace or bracket, split off the front of `l`. -/
def splitWsBrace (l : List Char) : Option (List Char × Char × List Char) :=
  match l.drop (l.takeWhile isJsWs).length with
  | d :: rest2 =>
    if d = rbrace ∨ d = ']' then some (l.takeWhile isJsWs, d, rest2) else none
  | [] => none

/-- Fuel-indexed worker for `stripTrailingCommas`; the fuel only makes
the recursion structural and `stripTrailingCommas` always supplies
enough, since every step consumes at least one character. -/
def stripTrailingCommasAux : Nat → List Char → List Char
  | 0, l => l
  | _, [] => []
  | fuel + 1, c :: rest =>
    if c = ',' then
      match splitWsBrace rest with
      | some (ws, d, rest2) => ws ++ d :: stripTrailingCommasAux fuel rest2
      | none => c :: stripTrailingCommasAux fuel rest
    else
      c :: stripTrailingCommasAux fuel rest

/-- `analyzer.ts` line 71: the global replace of `/,(\s*[}\]])/g` with the
captured group, i.e. a comma directly before (possibly whitespace and) a
closing brace or bracket is deleted.  One left-to-right pass, resuming
after each replacement, exactly as a JavaScript global replace does. -/
def stripTrailingCommas (l : List Char) : List Char :=
  stripTrailingCommasAux (l.length + 1) l

/-- The index of the last occurrence of `c` (JavaScript `lastIndexOf`,
`none` for `-1`). -/
def lastIdxOf (c : Char) : List Char → Option Nat
  | [] => none
  | x :: rest =>
    match lastIdxOf c rest with
    | some j => some (j + 1)
    | none => if x = c then some 0 else none

/-- `analyzer.ts` line 82: the number of non-overlapping matches of the
regex `/[^\\]"/g`, i.e. a quote preceded by a non-backslash character.
A quote at position 0 has no preceding character and is never counted. -/
def regexQuoteCount : List Char → Nat
  | a :: b :: rest =>
    if a ≠ '\\' ∧ b = '"' then regexQuoteCount rest + 1
    else regexQuoteCount (b :: rest)
  | _ => 0

/-- The quote step of `fixCommonJsonIssues` (`analyzer.ts` lines
73-89): if the total count of double-quote characters is odd, find the
last quote and, when the count of `/[^\\]"/g` matches in the text
before it (`unescapedQuotes`) is odd, insert one `"` right after it.
The source also computes `escapedQuotes`, which is never used. -/
def quoteRepair (fixed : List Char) : List Char :=
  if (fixed.count '"') % 2 ≠ 0 then
    match lastIdxOf '"' fixed with
    | some i =>
      if regexQuoteCount (fixed.take i) % 2 ≠ 0 then
        fixed.take (i + 1) ++ '"' :: fixed.drop (i + 1)
      else fixed
    | none => fixed
  else fixed

/-- `DatabaseAnalyzer.fixCommonJsonIssues` (`analyzer.ts` lines 69-92):
strip trailing commas, then apply the quote-balance step. -/
def fixCommonJsonIssuesL (json : List Char) : List Char :=
  quoteRepair (stripTrailingCommas json)

/-- String-level wrapper for `fixCommonJsonIssuesL`. -/
def fixCommonJsonIssues (s : String) : String :=
  ⟨fixCommonJsonIssuesL s.data⟩

/-- The count of semantically unescaped double quotes: a quote is escaped
exactly when preceded by an odd run of backslashes.  (This is the notion
the specification's "count unescaped double-quote characters" denotes;
the code's two counters approximate it.) -/
def semUnescapedQuotes : Bool → List Char → Nat
  | _, [] => 0
  | esc, c :: rest =>
    if c = '\\' then semUnescapedQuotes (!esc) rest
    else if c = '"' ∧ esc = false then semUnescapedQuotes false rest + 1
    else semUnescapedQuotes false rest

/-- JSON string-lexer state: `true` inside a string literal.  Scanning the
prefix before a quote tells whether that quote opens (`false`) or closes
(`true`) a string. -/
def stringState : Bool → List Char → Bool
  | st, [] => st
  | true, '\\' :: _ :: rest => stringState true rest
  | true, '\\' :: [] => true
  | true, c :: rest => stringState (!(c = '"')) rest
  | false, c :: rest => stringState (c = '"') rest

/-- Whether the final quote character of the text opens a string literal
(the premise of the specification's quote-balance repair). -/
def lastQuoteOpens (l : List Char) : Bool :=
  match lastIdxOf '"' l with
  | some i => !(stringState false (l.take i))
  | none => false

/-! ## A model of `JSON.parse`

A total recursive-descent parser over the JSON grammar, used by
`analyzeFile` (`analyzer.ts` line 34) and by the round-trip property of
the JSON renderer.  Numbers are integer literals (see the header note);
the parser rejects unescaped control characters in strings and trailing
garbage, as `JSON.parse` does. -/

/-- JSON's own whitespace (as accepted between tokens by `JSON.parse`):
space, tab, line feed, carriage return. -/
def isJsonWs (c : Char) : Bool :=
  c = ' ' || c = '\t' || c = '\n' || c = '\r'

/-- Drop leading JSON whitespace. -/
def dropWs : List Char → List Char
  | [] => []
  | c :: rest => if isJsonWs c then dropWs rest else c :: rest

/-- Decimal digit test. -/
def isDigitCh (c : Char) : Bool := '0' ≤ c && c ≤ '9'

/-- Split a leading digit run from the input. -/
def spanDigits : List Char → List Char × List Char
  | [] => ([], [])
  | c :: rest =>
    if isDigitCh c then
      let (ds, r) := spanDigits rest
      (c :: ds, r)
    else ([], c :: rest)

/-- Numeric value of a digit run (most significant first). -/
def digitsVal (ds : List Char) : Nat :=
  ds.foldl (fun acc c => acc * 10 + (c.toNat - 48)) 0

/-- Value of one hexadecimal digit. -/
def hexDigitVal (c : Char) : Option Nat :=
  if '0' ≤ c && c ≤ '9' then some (c.toNat - 48)
  else if 'a' ≤ c && c ≤ 'f' then some (c.toNat - 87)
  else if 'A' ≤ c && c ≤ 'F' then some (c.toNat - 55)
  else none

/-- The character named by a JSON short escape, if any. -/
def shortEscape (c : Char) : Option Char :=
  if c = '"' then some '"'
  else if c = '\\' then some '\\'
  else if c = '/' then some '/'
  else if c = 'b' then some (Char.ofNat 8)
  else if c = 'f' then some (Char.ofNat 12)
  else if c = 'n' then some '\n'
  else if c = 'r' then some '\r'
  else if c = 't' then some '\t'
  else none

/-- Parse the body of a JSON string literal after the opening quote,
accumulating decoded characters (reversed). -/
def parseStringBody (acc : List Char) : List Char → Option (String × List Char)
  | [] => none
  | c :: rest =>
    if c = '"' then some (⟨acc.reverse⟩, rest)
    else if c = '\\' then
      match rest with
      | [] => none
      | e :: rest2 =>
        if e = 'u' then
          match rest2 with
          | a :: b :: c2 :: d :: rest3 =>
            match hexDigitVal a, hexDigitVal b, hexDigitVal c2, hexDigitVal d with
            | some va, some vb, some vc, some vd =>
              parseStringBody
                (Char.ofNat (((va * 16 + vb) * 16 + vc) * 16 + vd) :: acc) rest3
            | _, _, _, _ => none
          | _ => none
        else
          match shortEscape e with
          | some ch => parseStringBody (ch :: acc) rest2
          | none => none
    else if c.toNat < 32 then none
    else parseStringBody (c :: acc) rest

/-- Parse a JSON integer literal (optional minus sign, digit run). -/
def parseIntLit (l : List Char) : Option (Int × List Char) :=
  if l.head? = some '-' then
    match spanDigits l.tail with
    | ([], _) => none
    | (ds, r) => some (-(digitsVal ds : Int), r)
  else
    match spanDigits l with
    | ([], _) => none
    | (ds, r) => some ((digitsVal ds : Int), r)

mutual

/-- Parse one JSON value (fuel-indexed; `jsonParse` supplies enough). -/
def parseVal : Nat → List Char → Option (JsonValue × List Char)
  | 0, _ => none
  | fuel + 1, input =>
    match dropWs input with
    | 'n' :: 'u' :: 'l' :: 'l' :: r => some (.null, r)
    | 't' :: 'r' :: 'u' :: 'e' :: r => some (.bool true, r)
    | 'f' :: 'a' :: 'l' :: 's' :: 'e' :: r => some (.bool false, r)
    | '"' :: r =>
      match parseStringBody [] r with
      | some (s, r2) => some (.str s, r2)
      | none => none
    | '[' :: r =>
      match dropWs r with
      | ']' :: r2 => some (.arr [], r2)
      | r1 =>
        match parseItems fuel r1 with
        | some (xs, r2) => some (.arr xs, r2)
        | none => none
    | c :: r =>
      if c = lbrace then
        match dropWs r with
        | d :: r2 =>
          if d = rbrace then some (.obj [], r2)
          else
            match parseFields fuel (d :: r2) with
            | some (fs, r3) => some (.obj fs, r3)
            | none => none
        | [] => none
      else
        match parseIntLit (c :: r) with
        | some (n, r2) => some (.num n, r2)
        | none => none
    | [] => none

/-- Parse one or more comma-separated array items up to the closing `]`. -/
def parseItems : Nat → List Char → Option (List JsonValue × List Char)
  | 0, _ => none
  | fuel + 1, input =>
    match parseVal fuel input with
    | none => none
    | some (v, r) =>
      match dropWs r with
      | ',' :: r2 =>
        match parseItems fuel r2 with
        | some (xs, r3) => some (v :: xs, r3)
        | none => none
      | ']' :: r2 => some ([v], r2)
      | _ => none

/-- Parse one or more comma-separated object members up to the closing
brace. -/
def parseFields : Nat → List Char → Option (List (String × JsonValue) × List Char)
  | 0, _ => none
  | fuel + 1, input =>
    match dropWs input with
    | '"' :: r =>
      match parseStringBody [] r with
      | none => none
      | some (k, r1) =>
        match dropWs r1 with
        | ':' :: r2 =>
          match parseVal fuel r2 with
          | none => none
          | some (v, r3) =>
            match dropWs r3 with
            | ',' :: r4 =>
              match parseFields fuel r4 with
              | some (fs, r5) => some ((k, v) :: fs, r5)
              | none => none
            | d :: r4 =>
              if d = rbrace then some ([(k, v)], r4) else none
            | [] => none
        | _ => none
    | _ => none

end

/-- Model of `JSON.parse`: parse one value, then require only whitespace
to remain.  `none` models a thrown `SyntaxError`. -/
def jsonParseL (l : List Char) : Option JsonValue :=
  match parseVal (l.length + 1) l with
  | some (v, r) => if dropWs r = [] then some v else none
  | none => none

/-- String-level wrapper for `jsonParseL`. -/
def jsonParse (s : String) : Option JsonValue :=
  jsonParseL s.data

/-! ## A model of `JSON.stringify`

`generateDocumentation` (`index.ts` line 219) serializes the Spec with
`JSON.stringify(spec, null, 2)`; the HTML example synthesizer uses both
the two-space-indented and the compact single-argument forms. -/

/-- Lowercase hexadecimal digit for `n < 16`. -/
def hexLower (n : Nat) : Char :=
  if n < 10 then Char.ofNat (48 + n) else Char.ofNat (87 + n)

/-- JSON escape of one character, as `JSON.stringify` encodes string
contents: the named short escapes, `\u00xx` for other control
characters, and every other character itself. -/
def escapeChar (c : Char) : List Char :=
  if c = '"' then ['\\', '"']
  else if c = '\\' then ['\\', '\\']
  else if c = '\n' then ['\\', 'n']
  else if c = '\r' then ['\\', 'r']
  else if c = '\t' then ['\\', 't']
  else if c = Char.ofNat 8 then ['\\', 'b']
  else if c = Char.ofNat 12 then ['\\', 'f']
  else if c.toNat < 32 then
    ['\\', 'u', '0', '0', hexLower (c.toNat / 16), hexLower (c.toNat % 16)]
  else [c]

/-- A string literal as `JSON.stringify` renders it. -/
def encStr (s : String) : List Char :=
  '"' :: (s.data.flatMap escapeChar ++ ['"'])

/-- Fuel-indexed worker for `natChars` (structural, so terms reduce). -/
def natCharsAux : Nat → Nat → List Char
  | 0, _ => []
  | fuel + 1, n =>
    if n < 10 then [Char.ofNat (48 + n)]
    else natCharsAux fuel (n / 10) ++ [Char.ofNat (48 + n % 10)]

/-- Decimal digits of a natural number, most significant first. -/
def natChars (n : Nat) : List Char := natCharsAux (n + 1) n

/-- Decimal rendering of an integer. -/
def intChars (i : Int) : List Char :=
  if i < 0 then '-' :: natChars i.natAbs else natChars i.natAbs

/-- The indentation emitted by `JSON.stringify(_, null, 2)` at nesting
depth `n`. -/
def pad (n : Nat) : List Char := List.replicate (2 * n) ' '

mutual

/-- One value at nesting depth `ind`, as `JSON.stringify(_, null, 2)`
lays it out. -/
def sVal (ind : Nat) : JsonValue → List Char
  | .null => "null".data
  | .bool true => "true".data
  | .bool false => "false".data
  | .num n => intChars n
  | .str s => encStr s
  | .arr [] => ['[', ']']
  | .arr (x :: xs) =>
    '[' :: '\n' :: (pad (ind + 1) ++ sVal (ind + 1) x ++ sItems (ind + 1) xs
      ++ '\n' :: (pad ind ++ [']']))
  | .obj [] => [lbrace, rbrace]
  | .obj ((k, v) :: ms) =>
    lbrace :: '\n' :: (pad (ind + 1) ++ encStr k ++ ':' :: ' ' :: sVal (ind + 1) v
      ++ sFields (ind + 1) ms ++ '\n' :: (pad ind ++ [rbrace]))

/-- Second and later array items, each on its own indented line. -/
def sItems (ind : Nat) : List JsonValue → List Char
  | [] => []
  | x :: xs => ',' :: '\n' :: (pad ind ++ sVal ind x ++ sItems ind xs)

/-- Second and later object members, each on its own indented line. -/
def sFields (ind : Nat) : List (String × JsonValue) → List Char
  | [] => []
  | (k, v) :: ms =>
    ',' :: '\n' :: (pad ind ++ encStr k ++ ':' :: ' ' :: sVal ind v ++ sFields ind ms)

end

/-- `JSON.stringify(v, null, 2)`. -/
def stringify2 (v : JsonValue) : String := ⟨sVal 0 v⟩

mutual

/-- One value as compact single-argument `JSON.stringify` renders it. -/
def cVal : JsonValue → List Char
  | .null => "null".data
  | .bool true => "true".data
  | .bool false => "false".data
  | .num n => intChars n
  | .str s => encStr s
  | .arr [] => ['[', ']']
  | .arr (x :: xs) => '[' :: (cVal x ++ cItems xs ++ [']'])
  | .obj [] => [lbrace, rbrace]
  | .obj ((k, v) :: ms) =>
    lbrace :: (encStr k ++ ':' :: cVal v ++ cFields ms ++ [rbrace])

/-- Second and later compact array items. -/
def cItems : List JsonValue → List Char
  | [] => []
  | x :: xs => ',' :: (cVal x ++ cItems xs)

/-- Second and later compact object members. -/
def cFields : List (String × JsonValue) → List Char
  | [] => []
  | (k, v) :: ms => ',' :: (encStr k ++ ':' :: cVal v ++ cFields ms)

end

/-- Compact `JSON.stringify(v)`. -/
def stringifyC (v : JsonValue) : String := ⟨cVal v⟩

/-! ## The record schema (`types.ts`) and validation (`analyzer.ts`)

`DatabaseFunctionSchema` / `SpecSchema` are zod schemas; their parse
semantics on the values `normalizeFunction` produces are embedded
directly.  Validated records keep zod's output shape: present optional
fields are `some`, absent ones `none`, and object keys follow the shape
declaration order when re-serialized. -/

/-- JavaScript truthiness of a value. -/
def truthy : JsonValue → Bool
  | .null => false
  | .bool b => b
  | .num n => n ≠ 0
  | .str s => s ≠ ""
  | .arr _ => true
  | .obj _ => true

/-- Property read on an object's field list; the last binding wins, as
for a JavaScript object built by inserting the bindings in order. -/
def getProp : List (String × JsonValue) → String → Option JsonValue
  | [], _ => none
  | (k2, v) :: rest, k =>
    match getProp rest k with
    | some x => some x
    | none => if k2 = k then some v else none

/-- JavaScript property access `v.k`: `none` is `undefined`.  On
primitives it is `undefined`; on `null` it would throw, which call
sites handle explicitly. -/
def jsProp (v : JsonValue) (k : String) : Option JsonValue :=
  match v with
  | .obj fields => getProp fields k
  | _ => none

/-- JavaScript `x.k || d`: the property value when present and truthy,
otherwise the default. -/
def jsOr (v : Option JsonValue) (d : JsonValue) : JsonValue :=
  match v with
  | some x => if truthy x then x else d
  | none => d

/-- The normalized `input`/`output` sub-objects built at
`analyzer.ts` lines 103-111 (field values still unvalidated). -/
structure NormSchemaObj where
  type : JsonValue
  properties : JsonValue
  required : Option JsonValue

/-- The object `normalizeFunction` returns (`analyzer.ts` lines 97-115):
every key present, `input`/`output` possibly `undefined` (`none`). -/
structure NormFunc where
  opId : JsonValue
  summary : JsonValue
  description : JsonValue
  tags : List JsonValue
  input : Option NormSchemaObj
  output : Option NormSchemaObj
  engine : JsonValue
  touches : JsonValue

/-- `DatabaseAnalyzer.normalizeFunction` (`analyzer.ts` lines 97-115).
Note `touches` defaults to the empty object, not to `undefined`. -/
def normalizeFunction (func : JsonValue) : NormFunc where
  opId := jsOr (jsProp func "opId") (.str "unknown")
  summary := jsOr (jsProp func "summary") (.str "")
  description := jsOr (jsProp func "description") (.str "")
  tags :=
    match jsProp func "tags" with
    | some (.arr xs) => xs
    | _ => []
  input :=
    match jsProp func "input" with
    | some iv =>
      if truthy iv then
        some ⟨jsOr (jsProp iv "type") (.str "object"),
              jsOr (jsProp iv "properties") (.obj []),
              some (jsOr (jsProp iv "required") (.arr []))⟩
      else none
    | none => none
  output :=
    match jsProp func "output" with
    | some ov =>
      if truthy ov then
        some ⟨jsOr (jsProp ov "type") (.str "object"),
              jsOr (jsProp ov "properties") (.obj []),
              none⟩
      else none
    | none => none
  engine := jsOr (jsProp func "engine") (.str "unknown")
  touches := jsOr (jsProp func "touches") (.obj [])

/-- A validated `input` object (`types.ts` lines 9-15). -/
structure InputSchema where
  type : String
  properties : Option (List (String × JsonValue))
  required : Option (List String)

/-- A validated `output` object (`types.ts` lines 16-21). -/
structure OutputSchema where
  type : String
  properties : Option (List (String × JsonValue))

/-- A validated `touches` object (`types.ts` lines 23-28). -/
structure Touches where
  read : Option (List String)
  write : Option (List String)

/-- A validated function record (`DatabaseFunction`, `types.ts` line 31). -/
structure DatabaseFunction where
  opId : String
  summary : String
  description : String
  tags : List String
  input : Option InputSchema
  output : Option OutputSchema
  engine : String
  touches : Option Touches

/-- The `info` object of a Spec (`types.ts` lines 36-38). -/
structure SpecInfo where
  title : String

/-- A validated Spec (`SpecSchema`, `types.ts` lines 34-40). -/
structure Spec where
  version : String
  info : SpecInfo
  functions : List DatabaseFunction

/-- `z.string().parse`. -/
def zodString : JsonValue → Option String
  | .str s => some s
  | _ => none

/-- `z.array(z.string()).parse`. -/
def zodStringArray : JsonValue → Option (List String)
  | .arr xs => xs.mapM zodString
  | _ => none

/-- `z.record(z.any()).parse`: accepts exactly plain objects, keeping
their fields. -/
def zodRecordAny : JsonValue → Option (List (String × JsonValue))
  | .obj fields => some fields
  | _ => none

/-- Parse of an optional object field under schema `p`: an absent key
parses to `none`; a present key must satisfy `p`. -/
def zodOptField (fields : List (String × JsonValue)) (k : String)
    (p : JsonValue → Option α) : Option (Option α) :=
  match getProp fields k with
  | none => some none
  | some v => (p v).map some

/-- The `touches` schema (`types.ts` lines 23-28) applied to a value. -/
def zodTouches (v : JsonValue) : Option Touches :=
  match v with
  | .obj fields => do
    let r ← zodOptField fields "read" zodStringArray
    let w ← zodOptField fields "write" zodStringArray
    some ⟨r, w⟩
  | _ => none

/-- The `input` schema applied to a normalized `input` object: `type`
must be a string, `properties` a record, `required` (when the object
carries one) an array of strings. -/
def zodInputObj (o : NormSchemaObj) : Option InputSchema := do
  let t ← zodString o.type
  let props ← zodRecordAny o.properties
  let req ←
    match o.required with
    | none => some none
    | some rv => (zodStringArray rv).map some
  some ⟨t, some props, req⟩

/-- The `output` schema applied to a normalized `output` object. -/
def zodOutputObj (o : NormSchemaObj) : Option OutputSchema := do
  let t ← zodString o.type
  let props ← zodRecordAny o.properties
  some ⟨t, some props⟩

/-- The optional `input` position: `undefined` passes through, a
present value must satisfy the `input` schema. -/
def zodOptInput : Option NormSchemaObj → Option (Option InputSchema)
  | none => some none
  | some o => (zodInputObj o).map some

/-- The optional `output` position. -/
def zodOptOutput : Option NormSchemaObj → Option (Option OutputSchema)
  | none => some none
  | some o => (zodOutputObj o).map some

/-- `SpecSchema.shape.functions.element.parse` (`analyzer.ts` line 45)
on the object `normalizeFunction` built: the whole record validates or
is rejected. -/
def zodParseFunction (n : NormFunc) : Option DatabaseFunction := do
  let opId ← zodString n.opId
  let summary ← zodString n.summary
  let description ← zodString n.description
  let tags ← n.tags.mapM zodString
  let input ← zodOptInput n.input
  let output ← zodOptOutput n.output
  let engine ← zodString n.engine
  let touches ← zodTouches n.touches
  some ⟨opId, summary, description, tags, input, output, engine, some touches⟩

/-- Normalize-then-validate for one parsed element (`analyzer.ts`
lines 44-46); `none` is the per-record rejection. -/
def validateOne (func : JsonValue) : Option DatabaseFunction :=
  zodParseFunction (normalizeFunction func)

/-! ## The analyzer (`analyzer.ts`)

The provider call (`ai-providers.ts`) is I/O; a file's provider outcome
is modelled as `Except String String` (network/auth failure, or the raw
response text).  JavaScript `Error` payloads are modelled as the plain
message strings they carry. -/

/-- JavaScript `String.prototype.trim`. -/
def jsTrim (l : List Char) : List Char :=
  ((l.dropWhile isJsWs).reverse.dropWhile isJsWs).reverse

/-- The characters of the fence opener "```json". -/
def fenceJson : List Char := [btick, btick, btick, 'j', 's', 'o', 'n']

/-- The characters of a bare triple-backtick fence. -/
def fence3 : List Char := [btick, btick, btick]

/-- `replace(/\s*```$/, "")`: remove a trailing fence and the
whitespace run before it, when the text ends with a fence. -/
def stripSuffixFence (l : List Char) : List Char :=
  let r := l.reverse
  if fence3.isPrefixOf r then ((r.drop 3).dropWhile isJsWs).reverse else l

/-- The markdown-fence cleanup of `analyzeFile`
(`analyzer.ts` lines 24-28). -/
def stripFences (l : List Char) : List Char :=
  if fenceJson.isPrefixOf l then
    stripSuffixFence ((l.drop 7).dropWhile isJsWs)
  else if fence3.isPrefixOf l then
    stripSuffixFence ((l.drop 3).dropWhile isJsWs)
  else l

/-- The separator `"\n-----\n"` of `raw.split` (`analyzer.ts` line 20). -/
def sepMarker : List Char := ['\n', '-', '-', '-', '-', '-', '\n']

/-- The text before the first separator occurrence (`split(...)[0]`). -/
def takeBeforeSep : List Char → List Char
  | [] => []
  | c :: rest =>
    if sepMarker.isPrefixOf (c :: rest) then [] else c :: takeBeforeSep rest

/-- `Array.isArray(parsed) ? parsed : [parsed]` (`analyzer.ts` line 37). -/
def asArray : JsonValue → List JsonValue
  | .arr xs => xs
  | v => [v]

/-- Whether a value is JavaScript `null`. -/
def isNullValue : JsonValue → Bool
  | .null => true
  | _ => false

/-- The per-element validation loop (`analyzer.ts` lines 40-53): each
element is normalized and validated; a failing element is dropped with a
warning and its siblings are still processed.  A `null` element throws
`TypeError` from the property access inside `normalizeFunction`, and the
warning path re-throws it, failing the whole file. -/
def processFunctions : List JsonValue → Except String (List DatabaseFunction)
  | [] => .ok []
  | f :: rest =>
    if isNullValue f then .error "TypeError: cannot read properties of null"
    else
      match validateOne f with
      | some record => (processFunctions rest).map (record :: ·)
      | none => processFunctions rest

/-- `DatabaseAnalyzer.analyzeFile` (`analyzer.ts` lines 14-64) as a
function of the provider outcome: split off the part before the
separator, trim, strip fences, apply `fixCommonJsonIssues`, parse, and
validate element-wise; every failure surfaces as `Analysis failed`. -/
def analyzeFile (providerResult : Except String String) :
    Except String (List DatabaseFunction) :=
  match providerResult with
  | .error e => .error ("Analysis failed: " ++ e)
  | .ok raw =>
    let jsonPart := takeBeforeSep raw.data
    let cleanJson := stripFences (jsTrim jsonPart)
    let fixedJson := fixCommonJsonIssuesL cleanJson
    match jsonParseL fixedJson with
    | none => .error "Analysis failed: Failed to parse AI response"
    | some parsed =>
      match processFunctions (asArray parsed) with
      | .ok fns => .ok fns
      | .error e => .error ("Analysis failed: Failed to parse AI response: " ++ e)

/-- One candidate file: its name and its provider-call outcome. -/
structure FileInput where
  fileName : String
  providerResult : Except String String

/-- The shared per-file fold of `analyzeFiles` / `analyzeWithStreaming`
(`analyzer.ts` lines 126-133 and 154-164): append the file's validated
records on success, append a warning naming the file on failure. -/
def analyzeStep (acc : List DatabaseFunction × List String) (file : FileInput) :
    List DatabaseFunction × List String :=
  match analyzeFile file.providerResult with
  | .ok fns => (acc.1 ++ fns, acc.2)
  | .error e =>
    (acc.1, acc.2 ++ ["Warning: Failed to analyze " ++ file.fileName ++ ": " ++ e])

/-- `DatabaseAnalyzer.analyzeFiles` (`analyzer.ts` lines 120-142),
returning the Spec together with the emitted warnings. -/
def analyzeFiles (files : List FileInput) (projectTitle : String) :
    Spec × List String :=
  let (allFunctions, warnings) := files.foldl analyzeStep ([], [])
  (⟨"0.1.0", ⟨projectTitle⟩, allFunctions⟩, warnings)

/-- `DatabaseAnalyzer.analyzeWithStreaming` (`analyzer.ts` lines
147-175): the same accumulation as `analyzeFiles`; the progress strings
are an observation hook with no control-flow effect and are not
modelled. -/
def analyzeWithStreaming (files : List FileInput) (projectTitle : String) :
    Spec × List String :=
  let (allFunctions, warnings) := files.foldl analyzeStep ([], [])
  (⟨"0.1.0", ⟨projectTitle⟩, allFunctions⟩, warnings)

/-! ## Serializing a Spec back to JSON (`index.ts` line 219) -/

/-- The JSON image of a validated `touches` object (zod shape order:
`read`, then `write`; absent fields omitted). -/
def touchesToJson (t : Touches) : JsonValue :=
  .obj ((match t.read with
         | some l => [("read", JsonValue.arr (l.map JsonValue.str))]
         | none => []) ++
        (match t.write with
         | some l => [("write", JsonValue.arr (l.map JsonValue.str))]
         | none => []))

/-- The JSON image of a validated `input` object. -/
def inputToJson (i : InputSchema) : JsonValue :=
  .obj ([("type", JsonValue.str i.type)] ++
        (match i.properties with
         | some ps => [("properties", JsonValue.obj ps)]
         | none => []) ++
        (match i.required with
         | some rs => [("required", JsonValue.arr (rs.map JsonValue.str))]
         | none => []))

/-- The JSON image of a validated `output` object. -/
def outputToJson (o : OutputSchema) : JsonValue :=
  .obj ([("type", JsonValue.str o.type)] ++
        (match o.properties with
         | some ps => [("properties", JsonValue.obj ps)]
         | none => []))

/-- The JSON image of a validated function record, keys in the shape
declaration order of `DatabaseFunctionSchema`. -/
def funcToJson (f : DatabaseFunction) : JsonValue :=
  .obj ([("opId", JsonValue.str f.opId),
         ("summary", JsonValue.str f.summary),
         ("description", JsonValue.str f.description),
         ("tags", JsonValue.arr (f.tags.map JsonValue.str))] ++
        (match f.input with
         | some i => [("input", inputToJson i)]
         | none => []) ++
        (match f.output with
         | some o => [("output", outputToJson o)]
         | none => []) ++
        [("engine", JsonValue.str f.engine)] ++
        (match f.touches with
         | some t => [("touches", touchesToJson t)]
         | none => []))

/-- The JSON image of a Spec, keys in the order the object literal at
`analyzer.ts` lines 135-141 inserts them: `version`, `info` (holding
`title`), `functions`. -/
def specToJson (s : Spec) : JsonValue :=
  .obj [("version", JsonValue.str s.version),
        ("info", JsonValue.obj [("title", JsonValue.str s.info.title)]),
        ("functions", JsonValue.arr (s.functions.map funcToJson))]

/-- The JSON-mode artifact: `JSON.stringify(spec, null, 2)`. -/
def renderJson (s : Spec) : String := stringify2 (specToJson s)

/-- The outcome of `generateDocumentation` (`index.ts` lines 125-220),
restricted to the pipeline-relevant observables: whether the
"No database functions found" notice was printed (line 147), the Spec
produced by the analyzer (if reached), the analyzer warnings, and the
JSON artifact (if that format was selected). -/
structure GenResult where
  noticeNothingFound : Bool
  spec : Option Spec
  warnings : List String
  jsonArtifact : Option String

/-- `generateDocumentation` (`index.ts` lines 125-220) over discovered
candidate files: an empty list short-circuits to the notice before any
Spec is built; otherwise the analyzer runs and the artifact is written. -/
def generateDocumentation (files : List FileInput) (projectTitle : String)
    (formatJson : Bool) : GenResult :=
  if files.length = 0 then
    ⟨true, none, [], none⟩
  else
    let (spec, warnings) := analyzeWithStreaming files projectTitle
    ⟨false, some spec, warnings, if formatJson then some (renderJson spec) else none⟩

/-! ## The HTML generator (`html-generator.ts`)

Only the parts the claims concern are embedded: the operation-kind
heuristic and the example synthesizer.  JavaScript `toLowerCase` is
modelled by per-character lowercasing (identical on the ASCII
identifiers involved). -/

/-- JavaScript `String.prototype.includes`. -/
def containsSub (s sub : String) : Bool :=
  s.data.tails.any (fun t => sub.data.isPrefixOf t)

/-- JavaScript `String.prototype.toLowerCase`, per character (identical
on the ASCII identifiers the heuristics inspect). -/
def jsToLower (s : String) : String := ⟨s.data.map Char.toLower⟩

/-- The CREATE vocabulary test of `getDatabaseOperation`. -/
def isCreateName (lower : String) : Bool :=
  containsSub lower "create" || containsSub lower "add" || containsSub lower "insert"

/-- The UPDATE vocabulary test. -/
def isUpdateName (lower : String) : Bool :=
  containsSub lower "update" || containsSub lower "edit" || containsSub lower "modify"

/-- The DELETE vocabulary test. -/
def isDeleteName (lower : String) : Bool :=
  containsSub lower "delete" || containsSub lower "remove" || containsSub lower "drop"

/-- The READ vocabulary test. -/
def isReadName (lower : String) : Bool :=
  containsSub lower "get" || containsSub lower "find" ||
  containsSub lower "search" || containsSub lower "list"

/-- Whether an optional table list is present and non-empty
(`touches.read && touches.read.length > 0`). -/
def hasTables : Option (List String) → Bool
  | some l => decide (l.length > 0)
  | none => false

/-- `getDatabaseOperation` (`html-generator.ts` lines 4-57): the
operation kind and badge color for one record. -/
def getDatabaseOperation (opId : String) (touches : Option Touches) :
    String × String :=
  let lowerOpId := jsToLower opId
  if isCreateName lowerOpId then ("CREATE", "post")
  else if isUpdateName lowerOpId then ("UPDATE", "put")
  else if isDeleteName lowerOpId then ("DELETE", "delete")
  else if isReadName lowerOpId then ("READ", "get")
  else
    match touches with
    | some t =>
      let hasRead := hasTables t.read
      let hasWrite := hasTables t.write
      if hasWrite && hasRead then ("READ/WRITE", "post")
      else if hasWrite then ("WRITE", "post")
      else if hasRead then ("READ", "get")
      else ("READ", "get")
    | none => ("READ", "get")

/-- Modelled from the spec (§4.5, priority clause (a)): the name-match
step of the claimed classifier, first matching vocabulary wins. -/
def nameKindSpec (lower : String) : Option String :=
  if isCreateName lower then some "CREATE"
  else if isUpdateName lower then some "UPDATE"
  else if isDeleteName lower then some "DELETE"
  else if isReadName lower then some "READ"
  else none

/-- Modelled from the spec (§4.5, priority clause (b)): the
`dataTouched` inspection of the claimed classifier. -/
def touchesKindSpec (touches : Option Touches) : Option String :=
  match touches with
  | none => none
  | some t =>
    if hasTables t.read && hasTables t.write then some "READ/WRITE"
    else if hasTables t.write then some "WRITE"
    else if hasTables t.read then some "READ"
    else none

/-- Modelled from the spec (§4.5): the claimed priority order — name
match first, then `dataTouched`, then the READ default. -/
def specOperationKind (opId : String) (touches : Option Touches) : String :=
  match nameKindSpec (jsToLower opId) with
  | some k => k
  | none =>
    match touchesKindSpec touches with
    | some k => k
    | none => "READ"

/-- One synthesized usage example (title and code block). -/
structure FuncExample where
  title : String
  code : String

/-- One parameter line of `generateInputExample`
(`html-generator.ts` lines 878-901). -/
def propParamSnippet (key : String) (prop : JsonValue) : String :=
  if !truthy prop then key ++ ": null"
  else
    match jsProp prop "default" with
    | some d => key ++ ": " ++ stringifyC d
    | none =>
      match jsProp prop "type" with
      | some (.str t) =>
        if t = "string" then key ++ ": \"example_" ++ key ++ "\""
        else if t = "number" || t = "integer" then key ++ ": 1"
        else if t = "boolean" then key ++ ": true"
        else if t = "array" then key ++ ": [\"item1\", \"item2\"]"
        else key ++ ": null"
      | _ => key ++ ": null"

/-- `HTMLGenerator.generateInputExample` (`html-generator.ts` lines
876-903). -/
def generateInputExample (f : DatabaseFunction) : String :=
  match f.input with
  | none => ""
  | some i =>
    match i.properties with
    | none => ""
    | some ps =>
      "\x7b\n  " ++
      String.intercalate ",\n  " (ps.map fun p => propParamSnippet p.1 p.2) ++
      "\n\x7d"

/-- One sample value of `generateSampleInput`
(`html-generator.ts` lines 908-930). -/
def samplePropValue (key : String) (prop : JsonValue) : JsonValue :=
  match jsProp prop "default" with
  | some d => d
  | none =>
    match jsProp prop "type" with
    | some (.str t) =>
      if t = "string" then .str ("example_" ++ key)
      else if t = "number" || t = "integer" then .num 1
      else if t = "boolean" then .bool true
      else if t = "array" then .arr [.str "item1", .str "item2"]
      else .null
    | _ => .null

/-- `HTMLGenerator.generateSampleInput`. -/
def generateSampleInput (i : InputSchema) : JsonValue :=
  match i.properties with
  | none => .obj []
  | some ps => .obj (ps.map fun p => (p.1, samplePropValue p.1 p.2))

/-- One sample value of `generateSampleOutput`
(`html-generator.ts` lines 935-955); note there is no `default` case. -/
def sampleOutValue (key : String) (prop : JsonValue) : JsonValue :=
  match jsProp prop "type" with
  | some (.str t) =>
    if t = "string" then .str ("sample_" ++ key)
    else if t = "number" || t = "integer" then .num 1
    else if t = "boolean" then .bool true
    else if t = "array" then .arr [.obj [("id", .num 1), ("name", .str "item1")]]
    else .null
  | _ => .null

/-- `HTMLGenerator.generateSampleOutput` (`html-generator.ts` lines
935-955): `{"result": "success"}` only when the schema has no
`properties` map. -/
def generateSampleOutput (o : OutputSchema) : JsonValue :=
  match o.properties with
  | none => .obj [("result", .str "success")]
  | some ps => .obj (ps.map fun p => (p.1, sampleOutValue p.1 p.2))

/-- One write-operation comment line of `generateDatabaseExample`. -/
def writeOpLine (opId : String) (table : String) : String :=
  let lower := jsToLower opId
  if containsSub lower "create" || containsSub lower "add" then
    "// - INSERT INTO " ++ table ++ "\n"
  else if containsSub lower "update" || containsSub lower "edit" then
    "// - UPDATE " ++ table ++ "\n"
  else if containsSub lower "delete" || containsSub lower "remove" then
    "// - DELETE FROM " ++ table ++ "\n"
  else
    "// - MODIFY " ++ table ++ "\n"

/-- `HTMLGenerator.generateDatabaseExample` (`html-generator.ts` lines
960-998). -/
def generateDatabaseExample (f : DatabaseFunction) : String :=
  match f.touches with
  | none => ""
  | some t =>
    let readPart :=
      match t.read with
      | some l =>
        if l.length > 0 then
          "// Read operations:\n" ++
          String.join (l.map fun table => "// - SELECT * FROM " ++ table ++ "\n")
        else ""
      | none => ""
    let writePart :=
      match t.write with
      | some l =>
        if l.length > 0 then
          (if readPart ≠ "" then "\n" else "") ++ "// Write operations:\n" ++
          String.join (l.map fun table => writeOpLine f.opId table)
        else ""
      | none => ""
    readPart ++ writePart

/-- `HTMLGenerator.createExamples` (`html-generator.ts` lines 827-873):
the function-call snippet, then the input example (if an input schema
exists), then the output example (if an output schema exists), then the
database-operations block (if `touches` exists and renders non-empty). -/
def createExamples (f : DatabaseFunction) : List FuncExample :=
  (match f.input with
   | some _ =>
     [⟨"Function Call",
       "// " ++ f.opId ++ "\nconst result = await " ++ f.opId ++ "(" ++
       generateInputExample f ++ ");"⟩]
   | none =>
     [⟨"Function Call",
       "// " ++ f.opId ++ "\nconst result = await " ++ f.opId ++ "();"⟩]) ++
  (match f.input with
   | some i => [⟨"Input Parameters", stringify2 (generateSampleInput i)⟩]
   | none => []) ++
  (match f.output with
   | some o => [⟨"Expected Output", stringify2 (generateSampleOutput o)⟩]
   | none => []) ++
  (match f.touches with
   | some _ =>
     if generateDatabaseExample f ≠ "" then
       [⟨"Database Operations", generateDatabaseExample f⟩]
     else []
   | none => [])

/-- Whether a schema's `properties` map is free of `null` values.  A
`null` property value makes the JavaScript sample generators throw
(`typedProp.default` / `typedProp.type` on `null`), so the example
synthesizer is embedded only for records satisfying this. -/
def schemaPropsSafe : Option (List (String × JsonValue)) → Bool
  | none => true
  | some ps =>
    ps.all fun p =>
      match p.2 with
      | .null => false
      | _ => true

/-- A record whose schemas the example synthesizer can process without
a JavaScript `TypeError` (see `schemaPropsSafe`). -/
def renderSafe (f : DatabaseFunction) : Bool :=
  (match f.input with
   | some i => schemaPropsSafe i.properties
   | none => true) &&
  (match f.output with
   | some o => schemaPropsSafe o.properties
   | none => true)

/-- Whether `v.k` is present and truthy (the `func.input ? ... :
undefined` test of `normalizeFunction`). -/
def truthyProp (v : JsonValue) (k : String) : Bool :=
  match jsProp v k with
  | some x => truthy x
  | none => false

/-- The records a file contributes to the Spec: its validated records on
success, nothing on failure. -/
def fileRecords (f : FileInput) : List DatabaseFunction :=
  ((analyzeFile f.providerResult).toOption).getD []

/-- The warning a file contributes: one message naming the file on
failure, nothing on success. -/
def fileWarning (f : FileInput) : Option String :=
  match analyzeFile f.providerResult with
  | .ok _ => none
  | .error e => some ("Warning: Failed to analyze " ++ f.fileName ++ ": " ++ e)

/-- Scenario stub: a well-formed provider response for file 1. -/
def scenarioRawA : String :=
  "[\x7b\"opId\":\"a\",\"summary\":\"\",\"description\":\"\",\"tags\":[],\"engine\":\"sql\"\x7d]"

/-- Scenario stub: a well-formed provider response for file 3. -/
def scenarioRawB : String :=
  "[\x7b\"opId\":\"b\",\"summary\":\"\",\"description\":\"\",\"tags\":[],\"engine\":\"sql\"\x7d]"

/-- Scenario C of the specification: three candidate files, the
provider throwing a network error for the second. -/
def scenarioFiles : List FileInput :=
  [⟨"file1", .ok scenarioRawA⟩,
   ⟨"file2", .error "network error"⟩,
   ⟨"file3", .ok scenarioRawB⟩]

/-- The remainder after a rendered number must not start with a digit,
or the number grammar would absorb it. -/
def digitsStop : List Char → Bool
  | [] => true
  | c :: _ => !isDigitCh c

/-- The top-level keys of a JSON object value (in order). -/
def topKeys : JsonValue → List String
  | .obj fields => fields.map Prod.fst
  | _ => []

/-! ## Claims C2 and C10: the repair step -/

/-- C10: on the valid JSON text `["a,}"]`, whose string literal contains
a comma directly before a closing brace, `fixCommonJsonIssues` rewrites
the interior of the string literal to `["a}"]`, so both texts parse but
to different values: the repair step is not the identity on
already-parseable JSON. -/
theorem claim_C10_repair_not_identity :
    fixCommonJsonIssues "[\"a,\x7d\"]" = "[\"a\x7d\"]" ∧
    jsonParse "[\"a,\x7d\"]" = some (JsonValue.arr [JsonValue.str "a,\x7d"]) ∧
    jsonParse "[\"a\x7d\"]" = some (JsonValue.arr [JsonValue.str "a\x7d"]) ∧
    JsonValue.arr [JsonValue.str "a,\x7d"] ≠ JsonValue.arr [JsonValue.str "a\x7d"] :=
  ⟨rfl, rfl, rfl, by simp⟩

/-- C2 (counterexample): the raw text `["a` has an odd count (one) of
unescaped double quotes and its final quote opens a string, yet the
repair step inserts nothing — the text comes back unchanged and remains
unparseable.  The code's guard (`regexQuoteCount` odd) misses a quote in
position 0 and otherwise fires when the final quote closes a string, so
the claimed insertion does not happen here. -/
theorem claim_C2_counterexample :
    semUnescapedQuotes false "[\"a".data = 1 ∧
    lastQuoteOpens "[\"a".data = true ∧
    fixCommonJsonIssues "[\"a" = "[\"a" ∧
    jsonParse "[\"a" = none :=
  ⟨rfl, rfl, rfl, rfl⟩

/-- C2 (amended): when the trailing-comma pass leaves the text unchanged
and the total count of double-quote characters is odd, the repair
inserts exactly one double quote immediately after the last quote
precisely when the count of `/[^\\]"/g` matches before the last quote is
odd, and otherwise returns the text unchanged; parseability of the
result is not guaranteed. -/
theorem claim_C2_amended (s : String)
    (hcomma : stripTrailingCommas s.data = s.data)
    (hodd : (s.data.count '"') % 2 ≠ 0)
    (i : Nat) (hlast : lastIdxOf '"' s.data = some i) :
    fixCommonJsonIssues s =
      (if regexQuoteCount (s.data.take i) % 2 ≠ 0 then
        ⟨s.data.take (i + 1) ++ '"' :: s.data.drop (i + 1)⟩
      else s) := by
  unfold fixCommonJsonIssues fixCommonJsonIssuesL quoteRepair
  rw [hcomma, if_pos hodd, hlast]
  by_cases hq : regexQuoteCount (s.data.take i) % 2 ≠ 0
  · simp only [if_pos hq]
  · simp only [if_neg hq]

/-- Witness for `claim_C2_amended` at the text `"ab"c"`: three quotes
(odd), one `/[^\\]"/g` match before the last quote (odd), so one quote
is inserted right after the final quote. -/
theorem claim_C2_amended_witness :
    fixCommonJsonIssues "\"ab\"c\"" = "\"ab\"c\"\"" :=
  (claim_C2_amended "\"ab\"c\"" rfl (by decide) 5 rfl).trans (by decide)

/-! ## Claim C8: the operation-kind heuristic -/

/-- C8: for every record, the derived operation kind follows the claimed
priority order — name vocabulary first (create/add/insert, then
update/edit/modify, then delete/remove/drop, then get/find/search/list),
then the `dataTouched` inspection, then the READ default — and in
particular `deleteUser` with no `dataTouched` classifies as DELETE. -/
theorem claim_C8_operation_kind :
    (∀ (opId : String) (touches : Option Touches),
      (getDatabaseOperation opId touches).1 = specOperationKind opId touches) ∧
    getDatabaseOperation "deleteUser" none = ("DELETE", "delete") := by
  refine ⟨fun opId touches => ?_, by decide⟩
  unfold getDatabaseOperation specOperationKind nameKindSpec touchesKindSpec
  by_cases h1 : isCreateName (jsToLower opId)
  · simp [h1]
  · by_cases h2 : isUpdateName (jsToLower opId)
    · simp [h1, h2]
    · by_cases h3 : isDeleteName (jsToLower opId)
      · simp [h1, h2, h3]
      · by_cases h4 : isReadName (jsToLower opId)
        · simp [h1, h2, h3, h4]
        · cases touches with
          | none => simp [h1, h2, h3, h4]
          | some t =>
            by_cases hr : hasTables t.read <;> by_cases hw : hasTables t.write <;>
              simp [h1, h2, h3, h4, hr, hw, Bool.and_comm]

/-! ## Claim C3: presence of the optional fields -/

theorem normalizeFunction_input_isSome (func : JsonValue) :
    (normalizeFunction func).input.isSome = truthyProp func "input" := by
  unfold normalizeFunction truthyProp
  cases jsProp func "input" with
  | none => rfl
  | some iv => by_cases h : truthy iv <;> simp [h]

theorem normalizeFunction_output_isSome (func : JsonValue) :
    (normalizeFunction func).output.isSome = truthyProp func "output" := by
  unfold normalizeFunction truthyProp
  cases jsProp func "output" with
  | none => rfl
  | some ov => by_cases h : truthy ov <;> simp [h]

theorem zodParseFunction_fields {n : NormFunc} {r : DatabaseFunction}
    (h : zodParseFunction n = some r) :
    r.touches.isSome = true ∧
    r.input.isSome = n.input.isSome ∧
    r.output.isSome = n.output.isSome := by
  simp only [zodParseFunction, bind, Option.bind_eq_some] at h
  obtain ⟨o1, h1, o2, h2, o3, h3, o4, h4, i5, h5, o6, h6, o7, h7, o8, h8, hfin⟩ := h
  cases hfin
  refine ⟨rfl, ?_, ?_⟩
  · cases hni : n.input with
    | none => rw [hni] at h5; unfold zodOptInput at h5; cases h5; rfl
    | some o =>
      rw [hni] at h5
      unfold zodOptInput at h5
      obtain ⟨x, hx, rfl⟩ := Option.map_eq_some'.mp h5
      rfl
  · cases hno : n.output with
    | none => rw [hno] at h6; unfold zodOptOutput at h6; cases h6; rfl
    | some o =>
      rw [hno] at h6
      unfold zodOptOutput at h6
      obtain ⟨x, hx, rfl⟩ := Option.map_eq_some'.mp h6
      rfl

/-- C3 (counterexample): a raw element with no `touches` field still
validates to a record whose `touches` (spec: `dataTouched`) is present,
as the empty object — `normalizeFunction` defaults `touches` to `{}`
rather than leaving it absent. -/
theorem claim_C3_counterexample :
    (validateOne (JsonValue.obj [("opId", JsonValue.str "f")])).map
        DatabaseFunction.touches = some (some ⟨none, none⟩) ∧
    jsProp (JsonValue.obj [("opId", JsonValue.str "f")]) "touches" = none :=
  ⟨rfl, rfl⟩

/-- C3 (amended): for every validated record, `input` and `output` are
present exactly when the raw element supplied a truthy value for them
(an empty object counts), while `touches` is always present, defaulting
to the empty object. -/
theorem claim_C3_optional_fields (func : JsonValue) (r : DatabaseFunction)
    (h : validateOne func = some r) :
    r.touches.isSome = true ∧
    r.input.isSome = truthyProp func "input" ∧
    r.output.isSome = truthyProp func "output" := by
  unfold validateOne at h
  obtain ⟨ht, hi, ho⟩ := zodParseFunction_fields h
  exact ⟨ht, hi.trans (normalizeFunction_input_isSome func),
         ho.trans (normalizeFunction_output_isSome func)⟩

/-- Witness for `claim_C3_optional_fields` at a raw element carrying an
empty-object `input` and nothing else. -/
theorem claim_C3_optional_fields_witness :
    validateOne (JsonValue.obj [("input", JsonValue.obj [])]) =
      some ⟨"unknown", "", "", [], some ⟨"object", some [], some []⟩,
            none, "unknown", some ⟨none, none⟩⟩ ∧
    (some (Touches.mk none none) : Option Touches).isSome = true ∧
    (some (InputSchema.mk "object" (some []) (some [])) :
        Option InputSchema).isSome =
      truthyProp (JsonValue.obj [("input", JsonValue.obj [])]) "input" :=
  ⟨rfl,
   (claim_C3_optional_fields (JsonValue.obj [("input", JsonValue.obj [])])
     ⟨"unknown", "", "", [], some ⟨"object", some [], some []⟩,
      none, "unknown", some ⟨none, none⟩⟩ rfl).1,
   (claim_C3_optional_fields (JsonValue.obj [("input", JsonValue.obj [])])
     ⟨"unknown", "", "", [], some ⟨"object", some [], some []⟩,
      none, "unknown", some ⟨none, none⟩⟩ rfl).2.1⟩

/-! ## Claim C9: the synthesized output example -/

/-- C9 (counterexample): a record with no output schema gets no output
example at all — `createExamples` only pushes the "Expected Output"
entry when `func.output` exists, so the claimed `{"result":"success"}`
default never appears for such a record. -/
theorem claim_C9_counterexample :
    createExamples ⟨"x", "", "", [], none, none, "sql", none⟩ =
      [⟨"Function Call", "// x\nconst result = await x();"⟩] ∧
    "Expected Output" ∉
      (createExamples ⟨"x", "", "", [], none, none, "sql", none⟩).map
        FuncExample.title :=
  ⟨rfl, by decide⟩

/-- C9 (amended): the synthesized examples include a JSON output example
exactly when the record has an output schema; that example renders
`generateSampleOutput`, which yields `{"result":"success"}` precisely
when the output schema has no `properties` map.  The `renderSafe`
premise excludes records whose schemas would make the JavaScript sample
generators throw (a `null` property value). -/
theorem claim_C9_output_example (f : DatabaseFunction)
    (_hsafe : renderSafe f = true) :
    ("Expected Output" ∈ (createExamples f).map FuncExample.title ↔
      f.output.isSome = true) ∧
    (∀ o, f.output = some o →
      FuncExample.mk "Expected Output" (stringify2 (generateSampleOutput o)) ∈
        createExamples f) ∧
    (∀ o : OutputSchema, o.properties = none →
      generateSampleOutput o = .obj [("result", .str "success")]) := by
  refine ⟨?_, ?_, ?_⟩
  · cases hi : f.input <;> cases ho : f.output <;> cases ht : f.touches <;>
      by_cases hdb : generateDatabaseExample f = "" <;>
      simp [createExamples, hi, ho, ht, hdb]
  · intro o ho
    cases hi : f.input <;> cases ht : f.touches <;>
      by_cases hdb : generateDatabaseExample f = "" <;>
      simp [createExamples, hi, ho, ht, hdb]
  · intro o hp
    simp [generateSampleOutput, hp]

/-- Witness for `claim_C9_output_example` at a record whose output
schema has no `properties`: the examples carry the default
`{"result":"success"}` block. -/
theorem claim_C9_output_example_witness :
    FuncExample.mk "Expected Output"
        (stringify2 (JsonValue.obj [("result", JsonValue.str "success")])) ∈
      createExamples ⟨"x", "", "", [], none, some ⟨"object", none⟩, "sql", none⟩ := by
  have h := claim_C9_output_example
    ⟨"x", "", "", [], none, some ⟨"object", none⟩, "sql", none⟩ rfl
  have h2 := h.2.1 ⟨"object", none⟩ rfl
  have h3 := h.2.2 ⟨"object", none⟩ rfl
  rw [h3] at h2
  exact h2

/-! ## Claim C1: per-element validation -/

theorem filterMap_length_countP (g : α → Option β) :
    ∀ l : List α, (l.filterMap g).length = l.countP (fun a => (g a).isSome)
  | [] => rfl
  | a :: l => by
    cases hg : g a <;>
      simp [List.filterMap_cons, hg, List.countP_cons,
            filterMap_length_countP g l]

theorem processFunctions_eq_filterMap :
    ∀ raws : List JsonValue, raws.all (fun v => !isNullValue v) = true →
      processFunctions raws = .ok (raws.filterMap validateOne)
  | [], _ => rfl
  | f :: rest, h => by
    simp only [List.all_cons, Bool.and_eq_true, Bool.not_eq_true'] at h
    have ih := processFunctions_eq_filterMap rest h.2
    unfold processFunctions
    cases hv : validateOne f <;>
      simp [h.1, List.filterMap_cons, hv, ih, Except.map]

/-- C1: over any parsed array of candidate records (none of them the
JavaScript `null`, which would instead abort the whole file with a
`TypeError`), the validation loop returns exactly the elements that
validate after normalization, in their original order, and its count
equals the number of such elements; an element rejected by the schema
(e.g. a non-string `opId`) is dropped while its siblings are processed. -/
theorem claim_C1_validation (raws : List JsonValue)
    (hnn : raws.all (fun v => !isNullValue v) = true) :
    processFunctions raws = .ok (raws.filterMap validateOne) ∧
    (raws.filterMap validateOne).length =
      raws.countP (fun v => (validateOne v).isSome) :=
  ⟨processFunctions_eq_filterMap raws hnn, filterMap_length_countP validateOne raws⟩

/-- Witness for `claim_C1_validation`: three schema-valid elements and
one with a numeric `opId`; the invalid one is dropped, the three others
survive in order. -/
theorem claim_C1_validation_witness :
    processFunctions
        [JsonValue.obj [("opId", JsonValue.str "f1")],
         JsonValue.obj [("opId", JsonValue.num 5)],
         JsonValue.obj [("opId", JsonValue.str "f3")],
         JsonValue.obj []] =
      .ok [⟨"f1", "", "", [], none, none, "unknown", some ⟨none, none⟩⟩,
           ⟨"f3", "", "", [], none, none, "unknown", some ⟨none, none⟩⟩,
           ⟨"unknown", "", "", [], none, none, "unknown", some ⟨none, none⟩⟩] :=
  ((claim_C1_validation
      [JsonValue.obj [("opId", JsonValue.str "f1")],
       JsonValue.obj [("opId", JsonValue.num 5)],
       JsonValue.obj [("opId", JsonValue.str "f3")],
       JsonValue.obj []] rfl).1).trans (by rfl)

/-! ## Claims C4 and C5: failure isolation and the empty run -/

theorem foldl_analyzeStep :
    ∀ (files : List FileInput) (fns : List DatabaseFunction) (ws : List String),
      files.foldl analyzeStep (fns, ws) =
        (fns ++ (files.map fileRecords).flatten, ws ++ files.filterMap fileWarning)
  | [], fns, ws => by simp
  | f :: rest, fns, ws => by
    cases ha : analyzeFile f.providerResult with
    | ok l =>
      simp only [List.foldl_cons, analyzeStep, ha]
      rw [foldl_analyzeStep rest]
      simp [fileRecords, fileWarning, ha, Except.toOption]
    | error e =>
      simp only [List.foldl_cons, analyzeStep, ha]
      rw [foldl_analyzeStep rest]
      simp [fileRecords, fileWarning, ha, Except.toOption]

theorem tailsAny_sub (sub b : List Char) :
    ∀ a : List Char, ((a ++ (sub ++ b)).tails.any fun t => sub.isPrefixOf t) = true := by
  intro a
  induction a with
  | nil =>
    simp only [List.nil_append]
    cases hsb : sub ++ b with
    | nil =>
      have hsub : sub = [] := by
        cases sub with
        | nil => rfl
        | cons x xs => simp at hsb
      subst hsub
      simp [List.tails]
    | cons c t =>
      rw [List.tails_cons]
      have hpre : sub.isPrefixOf (c :: t) = true := by
        rw [← hsb]
        simp [List.isPrefixOf_iff_prefix, List.prefix_append]
      simp [List.any_cons, hpre]
  | cons c a ih =>
    rw [List.cons_append, List.tails_cons]
    simp only [List.any_cons, ih, Bool.or_true]

/-- A string occurring between two others is found by `includes`. -/
theorem containsSub_append (a sub b : String) :
    containsSub (a ++ sub ++ b) sub = true := by
  unfold containsSub
  have hdata : (a ++ sub ++ b).data = a.data ++ (sub.data ++ b.data) := by
    simp [List.append_assoc]
  rw [hdata]
  exact tailsAny_sub sub.data b.data a.data

/-- C4: a provider or parse failure for one file is caught at the
per-file boundary: the resulting Spec holds exactly the validated
records of the succeeding files, in file order, and each failing file
gets a warning whose text contains its file name; the remaining files
are still processed. -/
theorem claim_C4_failure_isolation (files : List FileInput) (title : String) :
    (analyzeWithStreaming files title).1.functions =
      (files.map fileRecords).flatten ∧
    (analyzeWithStreaming files title).2 = files.filterMap fileWarning ∧
    (∀ f ∈ files, ∀ e, analyzeFile f.providerResult = .error e →
      ("Warning: Failed to analyze " ++ f.fileName ++ ": " ++ e) ∈
          (analyzeWithStreaming files title).2 ∧
      containsSub ("Warning: Failed to analyze " ++ f.fileName ++ ": " ++ e)
          f.fileName = true) := by
  have hfold := foldl_analyzeStep files [] []
  have hfun : (analyzeWithStreaming files title).1.functions =
      (files.map fileRecords).flatten := by
    simp [analyzeWithStreaming, hfold]
  have hwarn : (analyzeWithStreaming files title).2 = files.filterMap fileWarning := by
    simp [analyzeWithStreaming, hfold]
  refine ⟨hfun, hwarn, fun f hf e he => ⟨?_, ?_⟩⟩
  · rw [hwarn]
    exact List.mem_filterMap.mpr ⟨f, hf, by simp [fileWarning, he]⟩
  · have hassoc :
        "Warning: Failed to analyze " ++ f.fileName ++ ": " ++ e =
          "Warning: Failed to analyze " ++ f.fileName ++ (": " ++ e) := by
      rw [String.append_assoc]
    rw [hassoc]
    exact containsSub_append "Warning: Failed to analyze " f.fileName (": " ++ e)

/-- Witness for `claim_C4_failure_isolation`: Scenario C — the provider
fails for file 2 of 3, the Spec holds the records of files 1 and 3 in
order, and the only warning names file 2. -/
theorem claim_C4_failure_isolation_witness :
    (analyzeWithStreaming scenarioFiles "P").1.functions =
      [⟨"a", "", "", [], none, none, "sql", some ⟨none, none⟩⟩,
       ⟨"b", "", "", [], none, none, "sql", some ⟨none, none⟩⟩] ∧
    (analyzeWithStreaming scenarioFiles "P").2 =
      ["Warning: Failed to analyze file2: Analysis failed: network error"] ∧
    containsSub "Warning: Failed to analyze file2: Analysis failed: network error"
      "file2" = true :=
  ⟨((claim_C4_failure_isolation scenarioFiles "P").1).trans (by rfl),
   ((claim_C4_failure_isolation scenarioFiles "P").2.1).trans (by rfl),
   ((claim_C4_failure_isolation scenarioFiles "P").2.2
     ⟨"file2", .error "network error"⟩ (by simp [scenarioFiles])
     "Analysis failed: network error" rfl).2⟩

/-- C5 (counterexample): one candidate file whose extraction fails — the
run completes with an empty-functions Spec, but no "nothing found"
notice is printed (the notice at `index.ts` line 147 fires only when
zero candidate files are discovered, in which case no Spec is built at
all). -/
theorem claim_C5_counterexample :
    (generateDocumentation [⟨"f1", .error "network error"⟩] "T" true).spec =
      some ⟨"0.1.0", ⟨"T"⟩, []⟩ ∧
    GenResult.noticeNothingFound
      (generateDocumentation [⟨"f1", .error "network error"⟩] "T" true) = false ∧
    (generateDocumentation [] "T" true).noticeNothingFound = true ∧
    (generateDocumentation [] "T" true).spec = none :=
  ⟨rfl, rfl, rfl, rfl⟩

/-- C5 (amended): a run that discovers no candidate files reports the
"nothing found" notice and builds no Spec; a run whose candidate files
all fail extraction completes without error and yields a Spec with the
fixed version string, the given title and an empty functions sequence,
with per-file warnings but no "nothing found" notice. -/
theorem claim_C5_empty_runs (files : List FileInput) (title : String) :
    (files = [] →
      generateDocumentation files title true = ⟨true, none, [], none⟩) ∧
    (files ≠ [] →
      (∀ f ∈ files, ∃ e, analyzeFile f.providerResult = .error e) →
      (generateDocumentation files title true).noticeNothingFound = false ∧
      (generateDocumentation files title true).spec =
        some ⟨"0.1.0", ⟨title⟩, []⟩) := by
  constructor
  · intro h; subst h; rfl
  · intro hne hall
    have hlen : ¬ files.length = 0 := by
      cases files with
      | nil => exact absurd rfl hne
      | cons f r => simp
    have hfold := foldl_analyzeStep files [] []
    have hrec : ∀ f ∈ files, fileRecords f = [] := by
      intro f hf
      obtain ⟨e, he⟩ := hall f hf
      simp [fileRecords, he, Except.toOption]
    have hflat : (files.map fileRecords).flatten = [] := by
      rw [List.flatten_eq_nil_iff]
      intro l hl
      obtain ⟨f, hf, rfl⟩ := List.mem_map.mp hl
      exact hrec f hf
    constructor
    · simp [generateDocumentation, hlen]
    · simp [generateDocumentation, hlen, analyzeWithStreaming, hfold, hflat]

/-- Witness for `claim_C5_empty_runs`: a single failing file yields the
empty Spec without the notice; the empty file list yields the notice. -/
theorem claim_C5_empty_runs_witness :
    (generateDocumentation [⟨"g1", .error "auth error"⟩] "T2" true).spec =
      some ⟨"0.1.0", ⟨"T2"⟩, []⟩ ∧
    generateDocumentation ([] : List FileInput) "T2" true = ⟨true, none, [], none⟩ :=
  ⟨((claim_C5_empty_runs [⟨"g1", .error "auth error"⟩] "T2").2
      (by simp) (by simp [analyzeFile])).2,
   (claim_C5_empty_runs ([] : List FileInput) "T2").1 rfl⟩

/-! ## Round trip of the serializer: numbers -/

theorem natCharsAux_eq :
    ∀ n f1 f2, n < f1 → n < f2 → natCharsAux f1 n = natCharsAux f2 n := by
  intro n
  induction n using Nat.strongRecOn with
  | _ n ih =>
    intro f1 f2 h1 h2
    match f1, h1 with
    | f1 + 1, h1 =>
    match f2, h2 with
    | f2 + 1, h2 =>
    simp only [natCharsAux]
    by_cases h10 : n < 10
    · simp [h10]
    · simp only [if_neg h10]
      rw [ih (n / 10) (by omega) f1 f2 (by omega) (by omega)]

theorem natChars_unfold (n : Nat) :
    natChars n = if n < 10 then [Char.ofNat (48 + n)]
                 else natChars (n / 10) ++ [Char.ofNat (48 + n % 10)] := by
  unfold natChars
  simp only [natCharsAux]
  by_cases h10 : n < 10
  · simp [h10]
  · simp only [if_neg h10]
    rw [natCharsAux_eq (n / 10) n (n / 10 + 1) (by omega) (by omega)]
    rfl

theorem digitCh_spec (k : Nat) (h : k < 10) :
    (Char.ofNat (48 + k)).toNat - 48 = k ∧
    isDigitCh (Char.ofNat (48 + k)) = true := by
  interval_cases k <;> exact ⟨by decide, by decide⟩

theorem natChars_ne_nil (n : Nat) : natChars n ≠ [] := by
  rw [natChars_unfold]
  by_cases h10 : n < 10 <;> simp [h10]

theorem natChars_digits (n : Nat) : ∀ c ∈ natChars n, isDigitCh c = true := by
  induction n using Nat.strongRecOn with
  | _ n ih =>
    rw [natChars_unfold]
    intro c hc
    by_cases h10 : n < 10
    · rw [if_pos h10] at hc
      rw [List.mem_singleton] at hc
      subst hc
      exact (digitCh_spec n h10).2
    · rw [if_neg h10] at hc
      rcases List.mem_append.mp hc with h | h
      · exact ih (n / 10) (by omega) c h
      · rw [List.mem_singleton] at h
        subst h
        exact (digitCh_spec (n % 10) (by omega)).2

theorem digitsVal_natChars (n : Nat) : digitsVal (natChars n) = n := by
  induction n using Nat.strongRecOn with
  | _ n ih =>
    rw [natChars_unfold]
    by_cases h10 : n < 10
    · simp only [if_pos h10, digitsVal, List.foldl_cons, List.foldl_nil]
      rw [Nat.zero_mul, Nat.zero_add, (digitCh_spec n h10).1]
    · simp only [if_neg h10, digitsVal, List.foldl_append, List.foldl_cons,
                 List.foldl_nil]
      have hrec := ih (n / 10) (by omega)
      unfold digitsVal at hrec
      rw [hrec, (digitCh_spec (n % 10) (by omega)).1]
      omega

theorem spanDigits_stop {l : List Char} (h : digitsStop l = true) :
    spanDigits l = ([], l) := by
  cases l with
  | nil => rfl
  | cons c t =>
    simp only [digitsStop, Bool.not_eq_true'] at h
    simp [spanDigits, h]

theorem spanDigits_append (ds : List Char) (hds : ∀ c ∈ ds, isDigitCh c = true)
    (rest : List Char) (hrest : digitsStop rest = true) :
    spanDigits (ds ++ rest) = (ds, rest) := by
  induction ds with
  | nil => simpa using spanDigits_stop hrest
  | cons c t ih =>
    have hc : isDigitCh c = true := hds c (by simp)
    have ht := ih (fun x hx => hds x (by simp [hx]))
    simp [spanDigits, hc, ht]

theorem natChars_head (n : Nat) :
    ∃ c t, natChars n = c :: t ∧ isDigitCh c = true := by
  cases h : natChars n with
  | nil => exact absurd h (natChars_ne_nil n)
  | cons c t =>
    refine ⟨c, t, rfl, natChars_digits n c ?_⟩
    rw [h]
    exact List.mem_cons_self c t

theorem digit_ne_dash {c : Char} (h : isDigitCh c = true) : c ≠ '-' := by
  intro hc
  subst hc
  exact absurd h (by decide)

theorem parseIntLit_intChars (i : Int) (rest : List Char)
    (hr : digitsStop rest = true) :
    parseIntLit (intChars i ++ rest) = some (i, rest) := by
  unfold intChars
  by_cases hneg : i < 0
  · simp only [if_pos hneg, List.cons_append]
    unfold parseIntLit
    simp only [List.head?_cons, List.tail_cons, Option.some.injEq, if_pos rfl]
    rw [spanDigits_append _ (natChars_digits _) _ hr]
    obtain ⟨c, t, hct, -⟩ := natChars_head i.natAbs
    rw [hct]
    simp only []
    rw [← hct, digitsVal_natChars]
    have : -(i.natAbs : Int) = i := by omega
    rw [this]
    simp
  · simp only [if_neg hneg]
    obtain ⟨c, t, hct, hc⟩ := natChars_head i.natAbs
    unfold parseIntLit
    have hhead : (natChars i.natAbs ++ rest).head? = some c := by
      rw [hct]; rfl
    rw [hhead]
    have hne : ¬ (some c = some '-') := by
      simp [digit_ne_dash hc]
    rw [if_neg hne]
    rw [spanDigits_append _ (natChars_digits _) _ hr]
    rw [hct]
    simp only []
    rw [← hct, digitsVal_natChars]
    have : ((i.natAbs : Nat) : Int) = i := by omega
    rw [this]

/-! ## Round trip of the serializer: strings -/

theorem hexLower_val (k : Nat) (h : k < 16) : hexDigitVal (hexLower k) = some k := by
  interval_cases k <;> decide

theorem parseStringBody_quote (acc rest : List Char) :
    parseStringBody acc ('"' :: rest) = some (⟨acc.reverse⟩, rest) := by
  rw [parseStringBody.eq_def]
  simp

theorem parseStringBody_raw {c : Char} (acc rest : List Char)
    (h1 : ¬ c = '"') (h2 : ¬ c = '\\') (h3 : ¬ c.toNat < 32) :
    parseStringBody acc (c :: rest) = parseStringBody (c :: acc) rest := by
  rw [parseStringBody.eq_def]
  simp only [if_neg h1, if_neg h2, if_neg h3]

theorem parseStringBody_shortEsc {e ch : Char} (acc rest : List Char)
    (he : ¬ e = 'u') (hesc : shortEscape e = some ch) :
    parseStringBody acc ('\\' :: e :: rest) = parseStringBody (ch :: acc) rest := by
  rw [parseStringBody.eq_def]
  simp only [reduceIte]
  rw [if_neg he, hesc]
  simp

theorem parseStringBody_u (a b c2 d : Char) (va vb vc vd : Nat)
    (acc rest : List Char)
    (ha : hexDigitVal a = some va) (hb : hexDigitVal b = some vb)
    (hc : hexDigitVal c2 = some vc) (hd : hexDigitVal d = some vd) :
    parseStringBody acc ('\\' :: 'u' :: a :: b :: c2 :: d :: rest) =
      parseStringBody (Char.ofNat (((va * 16 + vb) * 16 + vc) * 16 + vd) :: acc)
        rest := by
  rw [parseStringBody.eq_def]
  simp only [reduceIte]
  rw [ha, hb, hc, hd]
  simp

theorem parseStringBody_escape (c : Char) (acc rest : List Char) :
    parseStringBody acc (escapeChar c ++ rest) = parseStringBody (c :: acc) rest := by
  unfold escapeChar
  by_cases h1 : c = '"'
  · subst h1
    exact parseStringBody_shortEsc acc rest (by decide) (by decide)
  · rw [if_neg h1]
    by_cases h2 : c = '\\'
    · subst h2
      exact parseStringBody_shortEsc acc rest (by decide) (by decide)
    · rw [if_neg h2]
      by_cases h3 : c = '\n'
      · subst h3
        exact parseStringBody_shortEsc acc rest (by decide) (by decide)
      · rw [if_neg h3]
        by_cases h4 : c = '\r'
        · subst h4
          exact parseStringBody_shortEsc acc rest (by decide) (by decide)
        · rw [if_neg h4]
          by_cases h5 : c = '\t'
          · subst h5
            exact parseStringBody_shortEsc acc rest (by decide) (by decide)
          · rw [if_neg h5]
            by_cases h6 : c = Char.ofNat 8
            · subst h6
              exact parseStringBody_shortEsc acc rest (by decide) (by decide)
            · rw [if_neg h6]
              by_cases h7 : c = Char.ofNat 12
              · subst h7
                exact parseStringBody_shortEsc acc rest (by decide) (by decide)
              · rw [if_neg h7]
                by_cases hlt : c.toNat < 32
                · rw [if_pos hlt]
                  rw [List.cons_append, List.cons_append, List.cons_append,
                      List.cons_append, List.cons_append, List.cons_append,
                      List.nil_append]
                  rw [parseStringBody_u '0' '0' (hexLower (c.toNat / 16))
                        (hexLower (c.toNat % 16)) 0 0 (c.toNat / 16)
                        (c.toNat % 16) acc rest (by decide) (by decide)
                        (hexLower_val (c.toNat / 16) (by omega))
                        (hexLower_val (c.toNat % 16) (by omega))]
                  have harith :
                      ((0 * 16 + 0) * 16 + c.toNat / 16) * 16 + c.toNat % 16 =
                        c.toNat := by omega
                  rw [harith, Char.ofNat_toNat]
                · rw [if_neg hlt]
                  rw [List.cons_append, List.nil_append]
                  exact parseStringBody_raw acc rest h1 h2 hlt

theorem parseStringBody_flatMap :
    ∀ (cs : List Char) (acc rest : List Char),
      parseStringBody acc (cs.flatMap escapeChar ++ '"' :: rest) =
        some (⟨acc.reverse ++ cs⟩, rest)
  | [], acc, rest => by
    rw [List.flatMap_nil, List.nil_append, parseStringBody_quote]
    simp
  | c :: cs, acc, rest => by
    rw [List.flatMap_cons, List.append_assoc, parseStringBody_escape,
        parseStringBody_flatMap cs (c :: acc) rest]
    simp

theorem parseStringBody_encStr (s : String) (rest : List Char) :
    parseStringBody [] (s.data.flatMap escapeChar ++ '"' :: rest) =
      some (s, rest) := by
  rw [parseStringBody_flatMap]
  rfl

/-! ## Round trip of the serializer: whitespace and head characters -/

theorem dropWs_cons_not {c : Char} (h : isJsonWs c = false) (l : List Char) :
    dropWs (c :: l) = c :: l := by
  simp [dropWs, h]

theorem dropWs_ws_append {ws : List Char} (h : ∀ c ∈ ws, isJsonWs c = true)
    (l : List Char) : dropWs (ws ++ l) = dropWs l := by
  induction ws with
  | nil => simp
  | cons c t ih =>
    have hc := h c (by simp)
    rw [List.cons_append]
    simp only [dropWs, hc, if_pos]
    exact ih (fun x hx => h x (by simp [hx]))

theorem pad_ws (n : Nat) : ∀ c ∈ pad n, isJsonWs c = true := by
  intro c hc
  rw [pad, List.mem_replicate] at hc
  rw [hc.2]
  decide

theorem ws_not_digit {c : Char} (h : isJsonWs c = true) : isDigitCh c = false := by
  simp only [isJsonWs, Bool.or_eq_true, decide_eq_true_eq] at h
  rcases h with ((h | h) | h) | h <;> subst h <;> decide

theorem digit_facts {c : Char} (h : isDigitCh c = true) :
    isJsonWs c = false ∧ c ≠ 'n' ∧ c ≠ 't' ∧ c ≠ 'f' ∧ c ≠ '"' ∧
    c ≠ '[' ∧ c ≠ lbrace ∧ c ≠ ']' ∧ c ≠ rbrace := by
  refine ⟨?_, ?_, ?_, ?_, ?_, ?_, ?_, ?_, ?_⟩
  · by_contra hw
    rw [Bool.not_eq_false] at hw
    rw [ws_not_digit hw] at h
    exact absurd h (by decide)
  all_goals intro he; subst he; exact absurd h (by decide)

theorem intChars_head (i : Int) :
    ∃ c t, intChars i = c :: t ∧ (c = '-' ∨ isDigitCh c = true) := by
  unfold intChars
  by_cases hneg : i < 0
  · exact ⟨'-', natChars i.natAbs, by simp [hneg], Or.inl rfl⟩
  · obtain ⟨c, t, hct, hc⟩ := natChars_head i.natAbs
    exact ⟨c, t, by simp [hneg, hct], Or.inr hc⟩

theorem numHead_facts {c : Char} (h : c = '-' ∨ isDigitCh c = true) :
    isJsonWs c = false ∧ c ≠ 'n' ∧ c ≠ 't' ∧ c ≠ 'f' ∧ c ≠ '"' ∧
    c ≠ '[' ∧ c ≠ lbrace ∧ c ≠ ']' ∧ c ≠ rbrace := by
  rcases h with h | h
  · subst h
    refine ⟨by decide, ?_, ?_, ?_, ?_, ?_, ?_, ?_, ?_⟩ <;> decide
  · exact digit_facts h

/-- The first character of any rendered value: never whitespace, never a
closing bracket or brace. -/
theorem sVal_head (ind : Nat) (v : JsonValue) :
    ∃ c t, sVal ind v = c :: t ∧ isJsonWs c = false ∧ c ≠ ']' ∧ c ≠ rbrace := by
  cases v with
  | num i =>
    obtain ⟨c, t, hct, hc⟩ := intChars_head i
    obtain ⟨hws, -, -, -, -, -, -, hbk, hbc⟩ := numHead_facts hc
    exact ⟨c, t, hct, hws, hbk, hbc⟩
  | null => refine ⟨'n', _, rfl, ?_, ?_, ?_⟩ <;> decide
  | bool b =>
    cases b
    · refine ⟨'f', _, rfl, ?_, ?_, ?_⟩ <;> decide
    · refine ⟨'t', _, rfl, ?_, ?_, ?_⟩ <;> decide
  | str s => refine ⟨'"', _, rfl, ?_, ?_, ?_⟩ <;> decide
  | arr es =>
    cases es
    · refine ⟨'[', _, rfl, ?_, ?_, ?_⟩ <;> decide
    · refine ⟨'[', _, rfl, ?_, ?_, ?_⟩ <;> decide
  | obj ms =>
    rcases ms with - | ⟨⟨k, v2⟩, ms2⟩
    · refine ⟨lbrace, _, rfl, ?_, ?_, ?_⟩ <;> decide
    · refine ⟨lbrace, _, rfl, ?_, ?_, ?_⟩ <;> decide

/-- One-step unfolding of `parseVal` at successor fuel (definitional). -/
theorem parseVal_succ (fuel : Nat) (input : List Char) :
    parseVal (fuel + 1) input =
      (match dropWs input with
       | 'n' :: 'u' :: 'l' :: 'l' :: r => some (.null, r)
       | 't' :: 'r' :: 'u' :: 'e' :: r => some (.bool true, r)
       | 'f' :: 'a' :: 'l' :: 's' :: 'e' :: r => some (.bool false, r)
       | '"' :: r =>
         match parseStringBody [] r with
         | some (s, r2) => some (.str s, r2)
         | none => none
       | '[' :: r =>
         match dropWs r with
         | ']' :: r2 => some (.arr [], r2)
         | r1 =>
           match parseItems fuel r1 with
           | some (xs, r2) => some (.arr xs, r2)
           | none => none
       | c :: r =>
         if c = lbrace then
           match dropWs r with
           | d :: r2 =>
             if d = rbrace then some (.obj [], r2)
             else
               match parseFields fuel (d :: r2) with
               | some (fs, r3) => some (.obj fs, r3)
               | none => none
           | [] => none
         else
           match parseIntLit (c :: r) with
           | some (n, r2) => some (.num n, r2)
           | none => none
       | [] => none) := rfl

/-- One-step unfolding of `parseItems` at successor fuel (definitional). -/
theorem parseItems_succ (fuel : Nat) (input : List Char) :
    parseItems (fuel + 1) input =
      (match parseVal fuel input with
       | none => none
       | some (v, r) =>
         match dropWs r with
         | ',' :: r2 =>
           match parseItems fuel r2 with
           | some (xs, r3) => some (v :: xs, r3)
           | none => none
         | ']' :: r2 => some ([v], r2)
         | _ => none) := rfl

/-- One-step unfolding of `parseFields` at successor fuel (definitional). -/
theorem parseFields_succ (fuel : Nat) (input : List Char) :
    parseFields (fuel + 1) input =
      (match dropWs input with
       | '"' :: r =>
         match parseStringBody [] r with
         | none => none
         | some (k, r1) =>
           match dropWs r1 with
           | ':' :: r2 =>
             match parseVal fuel r2 with
             | none => none
             | some (v, r3) =>
               match dropWs r3 with
               | ',' :: r4 =>
                 match parseFields fuel r4 with
                 | some (fs, r5) => some ((k, v) :: fs, r5)
                 | none => none
               | d :: r4 =>
                 if d = rbrace then some ([(k, v)], r4) else none
               | [] => none
           | _ => none
       | _ => none) := rfl

theorem parseVal_ws (fuel : Nat) {ws : List Char}
    (h : ∀ c ∈ ws, isJsonWs c = true) (l : List Char) :
    parseVal fuel (ws ++ l) = parseVal fuel l := by
  cases fuel with
  | zero => rfl
  | succ f => rw [parseVal_succ, parseVal_succ, dropWs_ws_append h]

theorem parseItems_ws (fuel : Nat) {ws : List Char}
    (h : ∀ c ∈ ws, isJsonWs c = true) (l : List Char) :
    parseItems fuel (ws ++ l) = parseItems fuel l := by
  cases fuel with
  | zero => rfl
  | succ f => rw [parseItems_succ, parseItems_succ, parseVal_ws f h]

theorem parseFields_ws (fuel : Nat) {ws : List Char}
    (h : ∀ c ∈ ws, isJsonWs c = true) (l : List Char) :
    parseFields fuel (ws ++ l) = parseFields fuel l := by
  cases fuel with
  | zero => rfl
  | succ f => rw [parseFields_succ, parseFields_succ, dropWs_ws_append h]

/-- A value whose input starts like a number parses through
`parseIntLit`. -/
theorem parseVal_to_parseIntLit (f : Nat) (c0 : Char) (t : List Char)
    (hws : isJsonWs c0 = false)
    (hn : c0 ≠ 'n') (ht : c0 ≠ 't') (hf2 : c0 ≠ 'f') (hq : c0 ≠ '"')
    (hbk : c0 ≠ '[') (hbc : c0 ≠ lbrace) :
    parseVal (f + 1) (c0 :: t) =
      (match parseIntLit (c0 :: t) with
       | some (n, r2) => some (.num n, r2)
       | none => none) := by
  rw [parseVal_succ, dropWs_cons_not hws]
  simp [hn, ht, hf2, hq, hbk, hbc]

/-! ## Round trip of the serializer: the mutual induction -/

theorem encStr_len_ge (k : String) : 2 ≤ (encStr k).length := by
  simp [encStr]

theorem digitsStop_ws_brace {wsuf : List Char}
    (hws : ∀ c ∈ wsuf, isJsonWs c = true) (b : Char) (hb : isDigitCh b = false)
    (rest : List Char) : digitsStop (wsuf ++ b :: rest) = true := by
  cases wsuf with
  | nil => simp [digitsStop, hb]
  | cons c w =>
    have hc := hws c (by simp)
    simp [digitsStop, ws_not_digit hc]

theorem parseVal_arr_step (f : Nat) (r : List Char) (c0 : Char) (t0 : List Char)
    (hdrop : dropWs r = c0 :: t0) (hne : c0 ≠ ']') :
    parseVal (f + 1) ('[' :: r) =
      (match parseItems f (c0 :: t0) with
       | some (xs, r2) => some (.arr xs, r2)
       | none => none) := by
  rw [parseVal_succ, dropWs_cons_not (by decide)]
  simp only []
  rw [hdrop]
  simp [hne]

theorem parseVal_obj_step (f : Nat) (r : List Char) (c0 : Char) (t0 : List Char)
    (hdrop : dropWs r = c0 :: t0) (hne : c0 ≠ rbrace) :
    parseVal (f + 1) (lbrace :: r) =
      (match parseFields f (c0 :: t0) with
       | some (fs, r3) => some (.obj fs, r3)
       | none => none) := by
  rw [parseVal_succ, dropWs_cons_not (by decide)]
  show (match dropWs r with
        | d :: r2 =>
          if d = rbrace then some (JsonValue.obj [], r2)
          else
            match parseFields f (d :: r2) with
            | some (fs, r3) => some (JsonValue.obj fs, r3)
            | none => none
        | [] => none) = _
  rw [hdrop]
  show (if c0 = rbrace then some (JsonValue.obj [], t0)
        else match parseFields f (c0 :: t0) with
             | some (fs, r3) => some (JsonValue.obj fs, r3)
             | none => none) = _
  rw [if_neg hne]

theorem parseVal_quote_step (f : Nat) (r : List Char) :
    parseVal (f + 1) ('"' :: r) =
      (match parseStringBody [] r with
       | some (s, r2) => some (.str s, r2)
       | none => none) := rfl

theorem parseFields_quote_step (g : Nat) (r : List Char) :
    parseFields (g + 1) ('"' :: r) =
      (match parseStringBody [] r with
       | none => none
       | some (k, r1) =>
         match dropWs r1 with
         | ':' :: r2 =>
           match parseVal g r2 with
           | none => none
           | some (v, r3) =>
             match dropWs r3 with
             | ',' :: r4 =>
               match parseFields g r4 with
               | some (fs, r5) => some ((k, v) :: fs, r5)
               | none => none
             | d :: r4 => if d = rbrace then some ([(k, v)], r4) else none
             | [] => none
         | _ => none) := rfl

mutual

theorem rt_val : ∀ (fuel : Nat) (v : JsonValue) (ind : Nat) (rest : List Char),
    (sVal ind v).length < fuel → digitsStop rest = true →
    parseVal fuel (sVal ind v ++ rest) = some (v, rest)
  | _ + 1, .null, _, rest, _, _ => rfl
  | _ + 1, .bool true, _, rest, _, _ => rfl
  | _ + 1, .bool false, _, rest, _, _ => rfl
  | fuel + 1, .num i, ind, rest, _, hr => by
    obtain ⟨c, t, hct, hc⟩ := intChars_head i
    obtain ⟨hws, hn, ht, hf2, hq, hbk, hbc, -, -⟩ := numHead_facts hc
    show parseVal (fuel + 1) (intChars i ++ rest) = some (.num i, rest)
    rw [hct, List.cons_append,
        parseVal_to_parseIntLit fuel c (t ++ rest) hws hn ht hf2 hq hbk hbc,
        ← List.cons_append, ← hct, parseIntLit_intChars i rest hr]
  | fuel + 1, .str s, ind, rest, _, _ => by
    show parseVal (fuel + 1) (encStr s ++ rest) = some (.str s, rest)
    have hshape : encStr s ++ rest =
        '"' :: (s.data.flatMap escapeChar ++ '"' :: rest) := by
      simp [encStr]
    rw [hshape, parseVal_quote_step, parseStringBody_encStr]
  | _ + 1, .arr [], _, rest, _, _ => rfl
  | fuel + 1, .arr (x :: xs), ind, rest, hf, _ => by
    have hge : (sVal (ind + 1) x).length + (sItems (ind + 1) xs).length + 4 ≤
        (sVal ind (.arr (x :: xs))).length := by
      simp [sVal, pad]
      omega
    have hwsA : ∀ c ∈ ('\n' :: pad (ind + 1)), isJsonWs c = true := by
      intro c hcm
      rcases List.mem_cons.mp hcm with h | h
      · subst h; decide
      · exact pad_ws _ c h
    have hwsB : ∀ c ∈ ('\n' :: pad ind), isJsonWs c = true := by
      intro c hcm
      rcases List.mem_cons.mp hcm with h | h
      · subst h; decide
      · exact pad_ws _ c h
    obtain ⟨c0, t0, hct, hcws, hcbk, -⟩ := sVal_head (ind + 1) x
    have hshape : sVal ind (.arr (x :: xs)) ++ rest =
        '[' :: (('\n' :: pad (ind + 1)) ++ (sVal (ind + 1) x ++
          (sItems (ind + 1) xs ++ (('\n' :: pad ind) ++ (']' :: rest))))) := by
      simp [sVal]
    rw [hshape]
    have hdrop : dropWs (('\n' :: pad (ind + 1)) ++ (sVal (ind + 1) x ++
        (sItems (ind + 1) xs ++ (('\n' :: pad ind) ++ (']' :: rest))))) =
        c0 :: (t0 ++ (sItems (ind + 1) xs ++ (('\n' :: pad ind) ++ (']' :: rest)))) := by
      rw [dropWs_ws_append hwsA, hct, List.cons_append, dropWs_cons_not hcws]
    rw [parseVal_arr_step fuel _ c0 _ hdrop hcbk]
    rw [show c0 :: (t0 ++ (sItems (ind + 1) xs ++ (('\n' :: pad ind) ++ (']' :: rest)))) =
        sVal (ind + 1) x ++ (sItems (ind + 1) xs ++ (('\n' :: pad ind) ++ (']' :: rest)))
        from by rw [hct]; simp]
    rw [rt_items fuel x xs (ind + 1) ('\n' :: pad ind) rest hwsB (by omega)]
  | _ + 1, .obj [], _, rest, _, _ => rfl
  | fuel + 1, .obj ((k, v) :: ms), ind, rest, hf, _ => by
    have hge : (encStr k).length + (sVal (ind + 1) v).length +
        (sFields (ind + 1) ms).length + 6 ≤
        (sVal ind (.obj ((k, v) :: ms))).length := by
      simp [sVal, pad, encStr]
      omega
    have hwsA : ∀ c ∈ ('\n' :: pad (ind + 1)), isJsonWs c = true := by
      intro c hcm
      rcases List.mem_cons.mp hcm with h | h
      · subst h; decide
      · exact pad_ws _ c h
    have hwsB : ∀ c ∈ ('\n' :: pad ind), isJsonWs c = true := by
      intro c hcm
      rcases List.mem_cons.mp hcm with h | h
      · subst h; decide
      · exact pad_ws _ c h
    have hshape : sVal ind (.obj ((k, v) :: ms)) ++ rest =
        lbrace :: (('\n' :: pad (ind + 1)) ++ (encStr k ++ (':' :: ' ' ::
          (sVal (ind + 1) v ++ (sFields (ind + 1) ms ++
            (('\n' :: pad ind) ++ (rbrace :: rest))))))) := by
      simp [sVal]
    rw [hshape]
    have hdrop : dropWs (('\n' :: pad (ind + 1)) ++ (encStr k ++ (':' :: ' ' ::
        (sVal (ind + 1) v ++ (sFields (ind + 1) ms ++
          (('\n' :: pad ind) ++ (rbrace :: rest))))))) =
        '"' :: ((k.data.flatMap escapeChar ++ ['"']) ++ (':' :: ' ' ::
          (sVal (ind + 1) v ++ (sFields (ind + 1) ms ++
            (('\n' :: pad ind) ++ (rbrace :: rest)))))) := by
      rw [dropWs_ws_append hwsA]
      rw [show encStr k ++ (':' :: ' ' ::
          (sVal (ind + 1) v ++ (sFields (ind + 1) ms ++
            (('\n' :: pad ind) ++ (rbrace :: rest))))) =
        '"' :: ((k.data.flatMap escapeChar ++ ['"']) ++ (':' :: ' ' ::
          (sVal (ind + 1) v ++ (sFields (ind + 1) ms ++
            (('\n' :: pad ind) ++ (rbrace :: rest)))))) from by simp [encStr]]
      rw [dropWs_cons_not (by decide)]
    rw [parseVal_obj_step fuel _ '"' _ hdrop (by decide)]
    rw [show ('"' :: ((k.data.flatMap escapeChar ++ ['"']) ++ (':' :: ' ' ::
          (sVal (ind + 1) v ++ (sFields (ind + 1) ms ++
            (('\n' :: pad ind) ++ (rbrace :: rest))))))) =
        encStr k ++ (':' :: ' ' ::
          (sVal (ind + 1) v ++ (sFields (ind + 1) ms ++
            (('\n' :: pad ind) ++ (rbrace :: rest)))))
        from by simp [encStr]]
    rw [rt_fields fuel k v ms (ind + 1) ('\n' :: pad ind) rest hwsB (by omega)]

theorem rt_items : ∀ (fuel : Nat) (x : JsonValue) (xs : List JsonValue)
    (ind : Nat) (wsuf rest : List Char),
    (∀ c ∈ wsuf, isJsonWs c = true) →
    (sVal ind x).length + (sItems ind xs).length + 1 < fuel →
    parseItems fuel (sVal ind x ++ (sItems ind xs ++ (wsuf ++ (']' :: rest)))) =
      some (x :: xs, rest)
  | fuel + 1, x, xs, ind, wsuf, rest, hws, hfl => by
    rw [parseItems_succ]
    have hstop : digitsStop (sItems ind xs ++ (wsuf ++ (']' :: rest))) = true := by
      cases xs with
      | nil =>
        rw [show sItems ind ([] : List JsonValue) ++ (wsuf ++ (']' :: rest)) =
            wsuf ++ (']' :: rest) from by simp [sItems]]
        exact digitsStop_ws_brace hws ']' (by decide) rest
      | cons y ys => simp [sItems, digitsStop, isDigitCh]
    rw [rt_val fuel x ind _ (by omega) hstop]
    show (match dropWs (sItems ind xs ++ (wsuf ++ (']' :: rest))) with
          | ',' :: r2 =>
            match parseItems fuel r2 with
            | some (xs2, r3) => some (x :: xs2, r3)
            | none => none
          | ']' :: r2 => some ([x], r2)
          | _ => none) = some (x :: xs, rest)
    cases xs with
    | nil =>
      rw [show sItems ind ([] : List JsonValue) ++ (wsuf ++ (']' :: rest)) =
          wsuf ++ (']' :: rest) from by simp [sItems]]
      rw [dropWs_ws_append hws, dropWs_cons_not (by decide)]
      rfl
    | cons y ys =>
      have hlen : (sItems ind (y :: ys)).length =
          (sVal ind y).length + (sItems ind ys).length + 2 * ind + 2 := by
        simp [sItems, pad]
        omega
      rw [show sItems ind (y :: ys) ++ (wsuf ++ (']' :: rest)) =
          ',' :: (('\n' :: pad ind) ++ (sVal ind y ++
            (sItems ind ys ++ (wsuf ++ (']' :: rest))))) from by simp [sItems]]
      rw [dropWs_cons_not (by decide)]
      show (match parseItems fuel (('\n' :: pad ind) ++ (sVal ind y ++
            (sItems ind ys ++ (wsuf ++ (']' :: rest))))) with
            | some (xs2, r3) => some (x :: xs2, r3)
            | none => none) = some (x :: y :: ys, rest)
      have hwsNl : ∀ c ∈ ('\n' :: pad ind), isJsonWs c = true := by
        intro c hcm
        rcases List.mem_cons.mp hcm with h | h
        · subst h; decide
        · exact pad_ws _ c h
      rw [parseItems_ws fuel hwsNl]
      rw [rt_items fuel y ys ind wsuf rest hws (by omega)]

theorem rt_fields : ∀ (fuel : Nat) (k : String) (v : JsonValue)
    (ms : List (String × JsonValue)) (ind : Nat) (wsuf rest : List Char),
    (∀ c ∈ wsuf, isJsonWs c = true) →
    (encStr k).length + (sVal ind v).length + (sFields ind ms).length + 1 < fuel →
    parseFields fuel (encStr k ++ (':' :: ' ' :: (sVal ind v ++
      (sFields ind ms ++ (wsuf ++ (rbrace :: rest)))))) =
      some ((k, v) :: ms, rest)
  | fuel + 1, k, v, ms, ind, wsuf, rest, hws, hfl => by
    have henc : 2 ≤ (encStr k).length := encStr_len_ge k
    rw [show encStr k ++ (':' :: ' ' :: (sVal ind v ++
        (sFields ind ms ++ (wsuf ++ (rbrace :: rest))))) =
      '"' :: (k.data.flatMap escapeChar ++ '"' :: (':' :: ' ' :: (sVal ind v ++
        (sFields ind ms ++ (wsuf ++ (rbrace :: rest)))))) from by simp [encStr]]
    rw [parseFields_quote_step, parseStringBody_encStr]
    show (match dropWs (':' :: ' ' :: (sVal ind v ++
          (sFields ind ms ++ (wsuf ++ (rbrace :: rest))))) with
          | ':' :: r2 =>
            match parseVal fuel r2 with
            | none => none
            | some (v2, r3) =>
              match dropWs r3 with
              | ',' :: r4 =>
                match parseFields fuel r4 with
                | some (fs, r5) => some ((k, v2) :: fs, r5)
                | none => none
              | d :: r4 => if d = rbrace then some ([(k, v2)], r4) else none
              | [] => none
          | _ => none) = some ((k, v) :: ms, rest)
    rw [dropWs_cons_not (by decide)]
    show (match parseVal fuel (' ' :: (sVal ind v ++
          (sFields ind ms ++ (wsuf ++ (rbrace :: rest))))) with
          | none => none
          | some (v2, r3) =>
            match dropWs r3 with
            | ',' :: r4 =>
              match parseFields fuel r4 with
              | some (fs, r5) => some ((k, v2) :: fs, r5)
              | none => none
            | d :: r4 => if d = rbrace then some ([(k, v2)], r4) else none
            | [] => none) = some ((k, v) :: ms, rest)
    have hsp : ∀ c ∈ ([' '] : List Char), isJsonWs c = true := by
      intro c hcm
      rw [List.mem_singleton] at hcm
      subst hcm
      decide
    rw [show (' ' :: (sVal ind v ++ (sFields ind ms ++ (wsuf ++ (rbrace :: rest))))) =
        [' '] ++ (sVal ind v ++ (sFields ind ms ++ (wsuf ++ (rbrace :: rest))))
        from rfl]
    rw [parseVal_ws fuel hsp]
    have hstop : digitsStop (sFields ind ms ++ (wsuf ++ (rbrace :: rest))) = true := by
      cases ms with
      | nil =>
        rw [show sFields ind ([] : List (String × JsonValue)) ++
            (wsuf ++ (rbrace :: rest)) = wsuf ++ (rbrace :: rest)
            from by simp [sFields]]
        exact digitsStop_ws_brace hws rbrace (by decide) rest
      | cons m ms2 =>
        obtain ⟨k2, v2⟩ := m
        simp [sFields, digitsStop, isDigitCh]
    rw [rt_val fuel v ind _ (by omega) hstop]
    show (match dropWs (sFields ind ms ++ (wsuf ++ (rbrace :: rest))) with
          | ',' :: r4 =>
            match parseFields fuel r4 with
            | some (fs, r5) => some ((k, v) :: fs, r5)
            | none => none
          | d :: r4 => if d = rbrace then some ([(k, v)], r4) else none
          | [] => none) = some ((k, v) :: ms, rest)
    cases ms with
    | nil =>
      rw [show sFields ind ([] : List (String × JsonValue)) ++
          (wsuf ++ (rbrace :: rest)) = wsuf ++ (rbrace :: rest)
          from by simp [sFields]]
      rw [dropWs_ws_append hws, dropWs_cons_not (by decide)]
      rfl
    | cons m ms2 =>
      obtain ⟨k2, v2⟩ := m
      have hlen : (sFields ind ((k2, v2) :: ms2)).length =
          (encStr k2).length + (sVal ind v2).length +
            (sFields ind ms2).length + 2 * ind + 4 := by
        simp [sFields, pad]
        omega
      rw [show sFields ind ((k2, v2) :: ms2) ++ (wsuf ++ (rbrace :: rest)) =
          ',' :: (('\n' :: pad ind) ++ (encStr k2 ++ (':' :: ' ' ::
            (sVal ind v2 ++ (sFields ind ms2 ++ (wsuf ++ (rbrace :: rest)))))))
          from by simp [sFields]]
      rw [dropWs_cons_not (by decide)]
      show (match parseFields fuel (('\n' :: pad ind) ++ (encStr k2 ++ (':' :: ' ' ::
            (sVal ind v2 ++ (sFields ind ms2 ++ (wsuf ++ (rbrace :: rest))))))) with
            | some (fs, r5) => some ((k, v) :: fs, r5)
            | none => none) = some ((k, v) :: (k2, v2) :: ms2, rest)
      have hwsNl : ∀ c ∈ ('\n' :: pad ind), isJsonWs c = true := by
        intro c hcm
        rcases List.mem_cons.mp hcm with h | h
        · subst h; decide
        · exact pad_ws _ c h
      rw [parseFields_ws fuel hwsNl]
      rw [rt_fields fuel k2 v2 ms2 ind wsuf rest hws (by omega)]

end

/-- The codec round trip: parsing a two-space-indented rendering
recovers the value exactly. -/
theorem jsonParse_stringify2 (v : JsonValue) :
    jsonParse (stringify2 v) = some v := by
  unfold jsonParse stringify2 jsonParseL
  have h := rt_val ((sVal 0 v).length + 1) v 0 [] (by omega) rfl
  rw [List.append_nil] at h
  show (match parseVal ((sVal 0 v).length + 1) (sVal 0 v) with
        | some (w, r) => if dropWs r = [] then some w else none
        | none => none) = some v
  rw [h]
  rfl

/-! ## Claims C6 and C7: JSON-mode output -/

/-- C6: serializing a Spec in JSON mode (`JSON.stringify(spec, null,
2)`, `index.ts` line 219) and parsing the text back as JSON yields
exactly the Spec's JSON value — the render/parse round trip. -/
theorem claim_C6_json_round_trip (s : Spec) :
    jsonParse (renderJson s) = some (specToJson s) :=
  jsonParse_stringify2 (specToJson s)

/-- C7 (counterexample): the serialized Spec's top-level keys are
`version`, `info`, `functions` — `title` is not a top-level key but
nested inside `info`, contradicting the claimed top-level order
`version`, `title`, `functions`. -/
theorem claim_C7_counterexample :
    topKeys (specToJson ⟨"0.1.0", ⟨"T"⟩, []⟩) = ["version", "info", "functions"] ∧
    "title" ∉ topKeys (specToJson ⟨"0.1.0", ⟨"T"⟩, []⟩) ∧
    renderJson ⟨"0.1.0", ⟨"T"⟩, []⟩ =
      "\x7b\n  \"version\": \"0.1.0\",\n  \"info\": \x7b\n    \"title\": \"T\"\n  \x7d,\n  \"functions\": []\n\x7d" :=
  ⟨rfl, by decide, rfl⟩

/-- C7 (amended): JSON mode serializes the Spec verbatim with stable
top-level key order `version`, `info`, `functions`, where `title` is
the sole key of the nested `info` object and `functions` keeps its
accumulated order; this is recovered exactly by parsing the artifact. -/
theorem claim_C7_json_key_order (s : Spec) :
    jsonParse (renderJson s) =
      some (.obj [("version", .str s.version),
                  ("info", .obj [("title", .str s.info.title)]),
                  ("functions", .arr (s.functions.map funcToJson))]) :=
  jsonParse_stringify2 (specToJson s)
